import Mathlib

/-!
Shallow embedding of `src/main.py`, a minimal FastAPI sandbox service
(token-gated shell execution, script running and filesystem access rooted
at a workspace directory), together with theorems settling the frozen
claims about its specification.

The embedding models:
  * the byte level of text file I/O (UTF-8 encoding, decoding with the
    replacement policy of `errors='replace'`, and the universal-newline
    translation performed by Python text-mode reads);
  * POSIX path-string manipulation as used by the code (`os.path.isabs`,
    `os.path.join`, `os.path.dirname`, `os.path.splitext`,
    `os.path.relpath`), with kernel-style resolution of path strings to
    component lists;
  * the filesystem as a finite store of files (path components to bytes)
    and directories, with the OS primitives the handlers call
    (`os.path.exists`, `os.path.isdir`, `os.makedirs`, `open` for read and
    write, `os.listdir`/`os.stat`, `os.remove`, `shutil.rmtree`);
  * each HTTP handler of `src/main.py` as a pure function from its request
    data and the filesystem state to a response-or-error and a new state.
    Process execution (`subprocess.run`) is an input to the model: an
    `ExecOutcome` value standing for what the operating system did.
-/

set_option maxRecDepth 8192

/-- Python `str.lower()` restricted to its ASCII action (the language tags
and file names compared by the code are ASCII). -/
def lowerStr (s : String) : String := String.mk (s.data.map Char.toLower)

/-- Join a list of strings with a separator (used to model
`'/'.join`-style reassembly inside `os.path.dirname` / `os.path.relpath`). -/
def joinWith (sep : String) : List String → String
  | [] => ""
  | [x] => x
  | x :: xs => x ++ sep ++ joinWith sep xs

/-- A single-quote character, written via its code point. -/
def sglq : String := String.mk [Char.ofNat 39]

/-- Python `repr` of a list of strings, as produced by
`f"... {list(LANGUAGE_RUNNERS.keys())}"`. -/
def pyStrListRepr (l : List String) : String :=
  "[" ++ joinWith ", " (l.map (fun s => sglq ++ s ++ sglq)) ++ "]"

/-- The character for the decimal digit `d`. -/
def digitChar (d : Nat) : Char := Char.ofNat (48 + d)

/-- Decimal digits of `n` (most significant first), with explicit fuel so
that the definition is structurally recursive; `fuel = n + 1` always
suffices. -/
def natDigitsAux : Nat → Nat → List Char
  | 0, _ => []
  | fuel + 1, n => if n < 10 then [digitChar n] else natDigitsAux fuel (n / 10) ++ [digitChar (n % 10)]

/-- Decimal rendering of a natural number, modelling Python `f"{counter}"`. -/
def natRepr (n : Nat) : String := String.mk (natDigitsAux (n + 1) n)

/-- Decimal digits of `n` as numbers (most significant first), the
abstract counterpart of `natDigitsAux`. -/
def natDigitsN : Nat → Nat → List Nat
  | 0, _ => []
  | fuel + 1, n => if n < 10 then [n] else natDigitsN fuel (n / 10) ++ [n % 10]

/-- Value of a most-significant-first digit list. -/
def valDigits (l : List Nat) : Nat := l.foldl (fun a d => a * 10 + d) 0

theorem natDigitsAux_eq_map (fuel n : Nat) :
    natDigitsAux fuel n = (natDigitsN fuel n).map digitChar := by
  induction fuel generalizing n with
  | zero => rfl
  | succ fuel ih =>
    simp only [natDigitsAux, natDigitsN]
    by_cases h : n < 10
    · simp [h]
    · simp [h, ih]

theorem valDigits_append_single (l : List Nat) (d : Nat) :
    valDigits (l ++ [d]) = valDigits l * 10 + d := by
  simp [valDigits, List.foldl_append]

theorem valDigits_natDigitsN (fuel n : Nat) (h : n < 10 ^ fuel) :
    valDigits (natDigitsN fuel n) = n := by
  induction fuel generalizing n with
  | zero => simp at h; simp [h, natDigitsN, valDigits]
  | succ fuel ih =>
    simp only [natDigitsN]
    by_cases h10 : n < 10
    · simp [valDigits, h10]
    · have hdiv : n / 10 < 10 ^ fuel := by
        rw [Nat.div_lt_iff_lt_mul (by norm_num)]
        calc n < 10 ^ (fuel + 1) := h
        _ = 10 ^ fuel * 10 := by ring
      rw [if_neg h10, valDigits_append_single, ih _ hdiv]
      omega

theorem natDigitsN_lt_ten (fuel n : Nat) : ∀ d ∈ natDigitsN fuel n, d < 10 := by
  induction fuel generalizing n with
  | zero => simp [natDigitsN]
  | succ fuel ih =>
    simp only [natDigitsN]
    by_cases h : n < 10
    · intro d hd; rw [if_pos h] at hd; simp at hd; omega
    · simp only [if_neg h]
      intro d hd
      rcases List.mem_append.1 hd with h1 | h1
      · exact ih (n / 10) d h1
      · simp at h1; omega

theorem digitChar_toNat (d : Nat) (h : d < 10) : (digitChar d).toNat = 48 + d := by
  interval_cases d <;> decide

theorem map_digitChar_inj (l₁ l₂ : List Nat) (h₁ : ∀ d ∈ l₁, d < 10) (h₂ : ∀ d ∈ l₂, d < 10)
    (h : l₁.map digitChar = l₂.map digitChar) : l₁ = l₂ := by
  induction l₁ generalizing l₂ with
  | nil => cases l₂ <;> simp_all
  | cons a l ih =>
    cases l₂ with
    | nil => simp_all
    | cons b l' =>
      simp only [List.map_cons, List.cons.injEq] at h
      have ha : a < 10 := h₁ a (by simp)
      have hb : b < 10 := h₂ b (by simp)
      have hab : (digitChar a).toNat = (digitChar b).toNat := by rw [h.1]
      rw [digitChar_toNat a ha, digitChar_toNat b hb] at hab
      have hl : l = l' := ih l' (fun d hd => h₁ d (by simp [hd])) (fun d hd => h₂ d (by simp [hd])) h.2
      simp [hl]; omega

theorem natRepr_inj {m n : Nat} (h : natRepr m = natRepr n) : m = n := by
  have hd : natDigitsAux (m + 1) m = natDigitsAux (n + 1) n := congrArg String.data h
  rw [natDigitsAux_eq_map, natDigitsAux_eq_map] at hd
  have hmn := map_digitChar_inj _ _ (natDigitsN_lt_ten _ m) (natDigitsN_lt_ten _ n) hd
  have hp : ∀ k : Nat, k < 10 ^ (k + 1) := by
    intro k
    calc k < 10 ^ k := Nat.lt_pow_self (by norm_num) k
    _ ≤ 10 ^ (k + 1) := Nat.pow_le_pow_right (by norm_num) (Nat.le_succ k)
  have hv1 := valDigits_natDigitsN (m + 1) m (hp m)
  have hv2 := valDigits_natDigitsN (n + 1) n (hp n)
  rw [← hv1, ← hv2, hmn]

/-- UTF-8 encoding of a single code point (the code point of a valid
`Char`, as produced by Python text-mode writes with `encoding="utf-8"`). -/
def utf8EncodeChar (c : Nat) : List Nat :=
  if c < 128 then [c]
  else if c < 2048 then [192 + c / 64, 128 + c % 64]
  else if c < 65536 then [224 + c / 4096, 128 + (c / 64) % 64, 128 + c % 64]
  else [240 + c / 262144, 128 + (c / 4096) % 64, 128 + (c / 64) % 64, 128 + c % 64]

/-- UTF-8 encoding of a list of characters. -/
def utf8EncodeList (l : List Char) : List Nat :=
  (l.map (fun ch => utf8EncodeChar ch.toNat)).flatten

/-- UTF-8 encoding of a string: the bytes Python writes for it in text
mode with `encoding="utf-8"`. -/
def utf8Encode (s : String) : List Nat := utf8EncodeList s.data

/-- The replacement character U+FFFD substituted by `errors='replace'`. -/
def repl : Char := Char.ofNat 65533

/-- Strict UTF-8 decoding with the `errors='replace'` policy of Python
(maximal-subpart substitution): each invalid sequence contributes one
U+FFFD and decoding resumes after its longest valid prefix.  The first
argument is fuel making the recursion structural; every step consumes at
least one byte and one unit of fuel, so fuel equal to the byte count (as
supplied by `utf8Decode`) is always sufficient. -/
def utf8DecodeAux : Nat → List Nat → List Char
  | 0, _ => []
  | _ + 1, [] => []
  | fuel + 1, b0 :: rest =>
    if b0 < 128 then Char.ofNat b0 :: utf8DecodeAux fuel rest
    else if b0 < 194 then repl :: utf8DecodeAux fuel rest
    else if b0 < 224 then
      match rest with
      | [] => [repl]
      | b1 :: rest1 =>
        if 128 ≤ b1 ∧ b1 ≤ 191 then
          Char.ofNat ((b0 - 192) * 64 + (b1 - 128)) :: utf8DecodeAux fuel rest1
        else repl :: utf8DecodeAux fuel (b1 :: rest1)
    else if b0 < 240 then
      match rest with
      | [] => [repl]
      | b1 :: rest1 =>
        if (if b0 = 224 then 160 else 128) ≤ b1 ∧ b1 ≤ (if b0 = 237 then 159 else 191) then
          match rest1 with
          | [] => [repl]
          | b2 :: rest2 =>
            if 128 ≤ b2 ∧ b2 ≤ 191 then
              Char.ofNat ((b0 - 224) * 4096 + (b1 - 128) * 64 + (b2 - 128)) :: utf8DecodeAux fuel rest2
            else repl :: utf8DecodeAux fuel (b2 :: rest2)
        else repl :: utf8DecodeAux fuel (b1 :: rest1)
    else if b0 < 245 then
      match rest with
      | [] => [repl]
      | b1 :: rest1 =>
        if (if b0 = 240 then 144 else 128) ≤ b1 ∧ b1 ≤ (if b0 = 244 then 143 else 191) then
          match rest1 with
          | [] => [repl]
          | b2 :: rest2 =>
            if 128 ≤ b2 ∧ b2 ≤ 191 then
              match rest2 with
              | [] => [repl]
              | b3 :: rest3 =>
                if 128 ≤ b3 ∧ b3 ≤ 191 then
                  Char.ofNat ((b0 - 240) * 262144 + (b1 - 128) * 4096 + (b2 - 128) * 64 + (b3 - 128)) :: utf8DecodeAux fuel rest3
                else repl :: utf8DecodeAux fuel (b3 :: rest3)
            else repl :: utf8DecodeAux fuel (b2 :: rest2)
        else repl :: utf8DecodeAux fuel (b1 :: rest1)
    else repl :: utf8DecodeAux fuel rest

/-- UTF-8 decoding of a byte list, as performed by Python text-mode reads
with `encoding="utf-8", errors='replace'` (before newline translation). -/
def utf8Decode (l : List Nat) : List Char := utf8DecodeAux l.length l

theorem modelCheck1 : utf8Decode [97, 98] = ['a', 'b'] := rfl
theorem modelCheck2 : utf8Decode (utf8Encode "aé☃é") = "aé☃é".data := rfl
theorem modelCheck3 : utf8Decode [65, 200, 66] = ['A', repl, 'B'] := rfl

theorem utf8DecodeAux_one (fuel b0 : Nat) (bs : List Nat) (h : b0 < 128) :
    utf8DecodeAux (fuel + 1) (b0 :: bs) = Char.ofNat b0 :: utf8DecodeAux fuel bs := by
  simp [utf8DecodeAux, h]

theorem utf8DecodeAux_two (fuel b0 b1 : Nat) (bs : List Nat)
    (h0 : 194 ≤ b0 ∧ b0 < 224) (h1 : 128 ≤ b1 ∧ b1 ≤ 191) :
    utf8DecodeAux (fuel + 1) (b0 :: b1 :: bs) =
      Char.ofNat ((b0 - 192) * 64 + (b1 - 128)) :: utf8DecodeAux fuel bs := by
  have e1 : ¬ b0 < 128 := by omega
  have e2 : ¬ b0 < 194 := by omega
  simp [utf8DecodeAux, e1, e2, h0.2, h1]

theorem utf8DecodeAux_three (fuel b0 b1 b2 : Nat) (bs : List Nat)
    (h0 : 224 ≤ b0 ∧ b0 < 240)
    (h1 : (if b0 = 224 then 160 else 128) ≤ b1 ∧ b1 ≤ (if b0 = 237 then 159 else 191))
    (h2 : 128 ≤ b2 ∧ b2 ≤ 191) :
    utf8DecodeAux (fuel + 1) (b0 :: b1 :: b2 :: bs) =
      Char.ofNat ((b0 - 224) * 4096 + (b1 - 128) * 64 + (b2 - 128)) :: utf8DecodeAux fuel bs := by
  have e1 : ¬ b0 < 128 := by omega
  have e2 : ¬ b0 < 194 := by omega
  have e3 : ¬ b0 < 224 := by omega
  simp [utf8DecodeAux, e1, e2, e3, h0.2, h1, h2]

theorem utf8DecodeAux_four (fuel b0 b1 b2 b3 : Nat) (bs : List Nat)
    (h0 : 240 ≤ b0 ∧ b0 < 245)
    (h1 : (if b0 = 240 then 144 else 128) ≤ b1 ∧ b1 ≤ (if b0 = 244 then 143 else 191))
    (h2 : 128 ≤ b2 ∧ b2 ≤ 191) (h3 : 128 ≤ b3 ∧ b3 ≤ 191) :
    utf8DecodeAux (fuel + 1) (b0 :: b1 :: b2 :: b3 :: bs) =
      Char.ofNat ((b0 - 240) * 262144 + (b1 - 128) * 4096 + (b2 - 128) * 64 + (b3 - 128)) ::
        utf8DecodeAux fuel bs := by
  have e1 : ¬ b0 < 128 := by omega
  have e2 : ¬ b0 < 194 := by omega
  have e3 : ¬ b0 < 224 := by omega
  have e4 : ¬ b0 < 240 := by omega
  simp [utf8DecodeAux, e1, e2, e3, e4, h0.2, h1, h2, h3]

/-- Decoding undoes encoding for one valid character, whatever follows. -/
theorem utf8DecodeAux_encodeChar (fuel : Nat) (c : Char) (bs : List Nat) :
    utf8DecodeAux (fuel + 1) (utf8EncodeChar c.toNat ++ bs) = c :: utf8DecodeAux fuel bs := by
  have hv : Nat.isValidChar c.toNat := c.valid
  rcases hv with hv | hv
  · by_cases h1 : c.toNat < 128
    · rw [show utf8EncodeChar c.toNat = [c.toNat] from by simp [utf8EncodeChar, h1]]
      rw [List.cons_append, List.nil_append, utf8DecodeAux_one fuel _ bs h1, Char.ofNat_toNat]
    · by_cases h2 : c.toNat < 2048
      · rw [show utf8EncodeChar c.toNat = [192 + c.toNat / 64, 128 + c.toNat % 64] from by
          simp [utf8EncodeChar, h1, h2]]
        rw [List.cons_append, List.cons_append, List.nil_append,
          utf8DecodeAux_two fuel _ _ bs (by omega) (by omega)]
        congr 1
        have : (192 + c.toNat / 64 - 192) * 64 + (128 + c.toNat % 64 - 128) = c.toNat := by omega
        rw [this, Char.ofNat_toNat]
      · rw [show utf8EncodeChar c.toNat =
            [224 + c.toNat / 4096, 128 + (c.toNat / 64) % 64, 128 + c.toNat % 64] from by
          simp [utf8EncodeChar, h1, h2, show c.toNat < 65536 from by omega]]
        rw [List.cons_append, List.cons_append, List.cons_append, List.nil_append,
          utf8DecodeAux_three fuel _ _ _ bs (by omega)
            (by constructor <;> split <;> omega) (by omega)]
        congr 1
        have : (224 + c.toNat / 4096 - 224) * 4096 + (128 + (c.toNat / 64) % 64 - 128) * 64 +
            (128 + c.toNat % 64 - 128) = c.toNat := by omega
        rw [this, Char.ofNat_toNat]
  · by_cases h2 : c.toNat < 65536
    · rw [show utf8EncodeChar c.toNat =
          [224 + c.toNat / 4096, 128 + (c.toNat / 64) % 64, 128 + c.toNat % 64] from by
        simp [utf8EncodeChar, show ¬ c.toNat < 128 from by omega,
          show ¬ c.toNat < 2048 from by omega, h2]]
      rw [List.cons_append, List.cons_append, List.cons_append, List.nil_append,
        utf8DecodeAux_three fuel _ _ _ bs (by omega)
          (by constructor <;> split <;> omega) (by omega)]
      congr 1
      have : (224 + c.toNat / 4096 - 224) * 4096 + (128 + (c.toNat / 64) % 64 - 128) * 64 +
          (128 + c.toNat % 64 - 128) = c.toNat := by omega
      rw [this, Char.ofNat_toNat]
    · rw [show utf8EncodeChar c.toNat =
          [240 + c.toNat / 262144, 128 + (c.toNat / 4096) % 64, 128 + (c.toNat / 64) % 64,
            128 + c.toNat % 64] from by
        simp [utf8EncodeChar, show ¬ c.toNat < 128 from by omega,
          show ¬ c.toNat < 2048 from by omega, h2]]
      rw [List.cons_append, List.cons_append, List.cons_append, List.cons_append, List.nil_append,
        utf8DecodeAux_four fuel _ _ _ _ bs (by omega)
          (by constructor <;> split <;> omega) (by omega) (by omega)]
      congr 1
      have : (240 + c.toNat / 262144 - 240) * 262144 + (128 + (c.toNat / 4096) % 64 - 128) * 4096 +
          (128 + (c.toNat / 64) % 64 - 128) * 64 + (128 + c.toNat % 64 - 128) = c.toNat := by omega
      rw [this, Char.ofNat_toNat]

theorem utf8DecodeAux_encodeList (l : List Char) :
    ∀ fuel, l.length ≤ fuel → utf8DecodeAux fuel (utf8EncodeList l) = l := by
  induction l with
  | nil =>
    intro fuel _
    cases fuel <;> simp [utf8EncodeList, utf8DecodeAux]
  | cons c l ih =>
    intro fuel hf
    match fuel, hf with
    | fuel + 1, hf =>
      have : utf8EncodeList (c :: l) = utf8EncodeChar c.toNat ++ utf8EncodeList l := by
        simp [utf8EncodeList]
      rw [this, utf8DecodeAux_encodeChar fuel c _, ih fuel (by simpa using Nat.lt_succ_iff.mp hf)]

theorem length_le_length_utf8EncodeList (l : List Char) :
    l.length ≤ (utf8EncodeList l).length := by
  induction l with
  | nil => simp [utf8EncodeList]
  | cons c l ih =>
    have hne : utf8EncodeChar c.toNat ≠ [] := by
      unfold utf8EncodeChar
      split <;> try simp
      split <;> try simp
      split <;> simp
    have : utf8EncodeList (c :: l) = utf8EncodeChar c.toNat ++ utf8EncodeList l := by
      simp [utf8EncodeList]
    rw [this]
    have h1 : 1 ≤ (utf8EncodeChar c.toNat).length := by
      cases he : utf8EncodeChar c.toNat with
      | nil => exact absurd he hne
      | cons a as => simp
    simp only [List.length_append, List.length_cons]
    omega

/-- UTF-8 round trip: decoding the encoding of any string of valid
characters gives back exactly that string's characters. -/
theorem utf8Decode_utf8Encode (s : String) : utf8Decode (utf8Encode s) = s.data := by
  unfold utf8Decode utf8Encode
  exact utf8DecodeAux_encodeList s.data _ (length_le_length_utf8EncodeList s.data)

/-- Universal-newline translation applied by Python text-mode reads with
the default `newline=None`: both CRLF and a lone CR become LF. -/
def univNl : List Char → List Char
  | [] => []
  | '\r' :: '\n' :: rest => '\n' :: univNl rest
  | '\r' :: rest => '\n' :: univNl rest
  | c :: rest => c :: univNl rest

theorem modelCheck4 : univNl "a\r\nb\rc\n".data = "a\nb\nc\n".data := rfl

theorem univNl_eq_self (l : List Char) (h : ∀ c ∈ l, c ≠ '\r') : univNl l = l := by
  induction l with
  | nil => rfl
  | cons c rest ih =>
    have hc : c ≠ '\r' := h c (by simp)
    have hrest : univNl rest = rest := ih (fun x hx => h x (by simp [hx]))
    cases rest with
    | nil => simp [univNl, hc]
    | cons d rest' => simp [univNl, hc, hrest]

/-- Split a character list at every slash (helper; the accumulator holds
the current component reversed). -/
def splitAux : List Char → List Char → List String
  | [], acc => [String.mk acc.reverse]
  | c :: cs, acc => if c = '/' then String.mk acc.reverse :: splitAux cs [] else splitAux cs (c :: acc)

/-- Raw slash-separated components of a path string (may contain empty
components for leading, trailing or doubled slashes, and the literal
components "." and ".."). -/
def splitRaw (l : List Char) : List String := splitAux l []

/-- Kernel-style resolution of raw components: empty components and "."
are skipped, ".." removes the preceding component.  This is how the
operating system interprets the path strings the code passes to it. -/
def normComps (l : List String) : List String :=
  l.foldl (fun acc c => if c = "" ∨ c = "." then acc else if c = ".." then acc.dropLast else acc ++ [c]) []

/-- Absolute path components a path string denotes once the OS resolves
it (all paths the handlers build are absolute, rooted at "/"). -/
def splitPath (s : String) : List String := normComps (splitRaw s.data)

theorem modelCheck5 : splitPath "/workspace/a.txt" = ["workspace", "a.txt"] := rfl
theorem modelCheck6 : splitPath "/workspace//x/./../a" = ["workspace", "a"] := rfl

/-- Model of `os.path.isabs`. -/
def isabs (s : String) : Bool :=
  match s.data with
  | c :: _ => c = '/'
  | [] => false

/-- Whether the path string ends with a slash. -/
def endsSlash (s : String) : Bool := s.data.getLast? = some '/'

/-- The last raw component of a path string ("" for a string that is
empty or ends with a slash). -/
def lastRaw (s : String) : String := ((splitRaw s.data).getLast?).getD ""

/-- Model of `os.path.join` for two components as used by the code. -/
def osJoin (a b : String) : String :=
  if isabs b then b
  else if a = "" ∨ endsSlash a then a ++ b
  else a ++ "/" ++ b

/-- Model of `os.path.dirname`: everything before the last slash. -/
def dirnameStr (s : String) : String := joinWith "/" ((splitRaw s.data).dropLast)

theorem modelCheck7 : dirnameStr "/workspace/a/b.txt" = "/workspace/a" := rfl
theorem modelCheck8 : dirnameStr "rel.txt" = "" := rfl

/-- Path resolution shared by the write/read/list/delete handlers of
`src/main.py`: an absolute path is used as-is, a relative path is joined
under the workspace root. -/
def resolvePath (workspace path : String) : String :=
  if isabs path then path else osJoin workspace path

/-- Model of `posixpath.splitext` on character lists: split off the
extension at the last dot, provided it lies in the basename and the
basename has a non-dot character before it. -/
def splitextData (cs : List Char) : List Char × List Char :=
  match cs.reverse.findIdx? (fun c => c = '.') with
  | none => (cs, [])
  | some j =>
    let d := cs.length - 1 - j
    let s0 := match cs.reverse.findIdx? (fun c => c = '/') with
      | none => 0
      | some k => cs.length - k
    if s0 ≤ d ∧ ((cs.drop s0).take (d - s0)).any (fun c => ¬ c = '.') then
      (cs.take d, cs.drop d)
    else (cs, [])

/-- Model of `os.path.splitext`. -/
def splitext (s : String) : String × String :=
  ((String.mk (splitextData s.data).1), (String.mk (splitextData s.data).2))

theorem modelCheck9 : splitext "a.txt" = ("a", ".txt") := rfl
theorem modelCheck10 : splitext ".bashrc" = (".bashrc", "") := rfl
theorem modelCheck11 : splitext "archive.tar.gz" = ("archive.tar", ".gz") := rfl
theorem modelCheck12 : splitext "noext" = ("noext", "") := rfl

/-- Length of the common component prefix of two resolved paths. -/
def commonLen : List String → List String → Nat
  | a :: as, b :: bs => if a = b then commonLen as bs + 1 else 0
  | _, _ => 0

/-- Model of `os.path.relpath p start` for resolved absolute paths. -/
def relpathStr (p start : String) : String :=
  let pc := splitPath p
  let sc := splitPath start
  let k := commonLen pc sc
  let parts := List.replicate (sc.length - k) ".." ++ pc.drop k
  if parts = [] then "." else joinWith "/" parts

theorem modelCheck13 : relpathStr "/workspace/d/a.txt" "/workspace" = "d/a.txt" := rfl
theorem modelCheck14 : relpathStr "/etc/hosts" "/workspace" = "../etc/hosts" := rfl

/-- A resolved absolute path, as the list of its components. -/
abbrev FsPath := List String

/-- The filesystem state the handlers act on: a finite store of regular
files (resolved path to byte content) and of directories. -/
structure FS where
  files : List (FsPath × List Nat)
  dirs : List FsPath
deriving DecidableEq

/-- Content of the regular file at `p`, if any. -/
def lookupFile (fs : FS) (p : FsPath) : Option (List Nat) :=
  (fs.files.find? (fun e => decide (e.1 = p))).map (fun e => e.2)

/-- Whether a regular file exists at `p`. -/
def isFileB (fs : FS) (p : FsPath) : Bool := (lookupFile fs p).isSome

/-- Whether a directory exists at `p` (the root always does). -/
def isDirB (fs : FS) (p : FsPath) : Bool := decide (p = [] ∨ p ∈ fs.dirs)

/-- Whether anything exists at the resolved path `p`. -/
def pathExistsB (fs : FS) (p : FsPath) : Bool := isDirB fs p || isFileB fs p

/-- Whether a raw path component forces the OS to treat the path as a
directory reference (empty component from a trailing slash, "." or ".."). -/
def badLast (c : String) : Bool := decide (c = "" ∨ c = "." ∨ c = "..")

/-- Model of `os.path.exists` on a path string: a path whose last raw
component is empty, "." or ".." only exists when it resolves to a
directory; otherwise anything at the resolved path counts. -/
def existsS (fs : FS) (s : String) : Bool :=
  if badLast (lastRaw s) then isDirB fs (splitPath s) else pathExistsB fs (splitPath s)

/-- Model of `os.path.isdir` on a path string. -/
def isdirS (fs : FS) (s : String) : Bool := isDirB fs (splitPath s)

/-- Create or overwrite the regular file at `p`. -/
def setFile (fs : FS) (p : FsPath) (content : List Nat) : FS :=
  FS.mk ((p, content) :: fs.files.filter (fun e => decide (¬ e.1 = p))) fs.dirs

/-- Model of `os.remove`. -/
def removeFile (fs : FS) (p : FsPath) : FS :=
  FS.mk (fs.files.filter (fun e => decide (¬ e.1 = p))) fs.dirs

/-- Boolean component-prefix test between resolved paths. -/
def isPref : FsPath → FsPath → Bool
  | [], _ => true
  | _, [] => false
  | a :: as, b :: bs => a = b && isPref as bs

/-- Model of `shutil.rmtree`: remove the tree rooted at `p`. -/
def rmtree (fs : FS) (p : FsPath) : FS :=
  FS.mk (fs.files.filter (fun e => ! isPref p e.1)) (fs.dirs.filter (fun q => ! isPref p q))

/-- Model of `os.makedirs(path, exist_ok=True)` on a resolved path:
fails if some step of the path is a regular file, otherwise creates every
missing ancestor directory. -/
def makedirsP (fs : FS) (p : FsPath) : Except String FS :=
  if p.inits.any (fun q => isFileB fs q) then .error "FileExistsError"
  else .ok (FS.mk fs.files (p.inits ++ fs.dirs))

/-- Model of `os.makedirs(path, exist_ok=True)` on a path string. -/
def makedirsS (fs : FS) (d : String) : Except String FS := makedirsP fs (splitPath d)

/-- Model of `open(s, "w"/"wb")` followed by writing `content`: fails when
the path is a directory reference, when something at the resolved path is
a directory, or when the parent is not an existing directory. -/
def openWrite (s : String) (content : List Nat) (fs : FS) : Except String FS :=
  if badLast (lastRaw s) then .error "IsADirectoryError"
  else if isDirB fs (splitPath s) then .error "IsADirectoryError"
  else if ! isDirB fs (splitPath s).dropLast then .error "NotADirectoryError"
  else .ok (setFile fs (splitPath s) content)

/-- Model of `open(s, "r")` followed by reading everything: the raw bytes
of the regular file at the resolved path. -/
def openRead (s : String) (fs : FS) : Except String (List Nat) :=
  if isDirB fs (splitPath s) then .error "IsADirectoryError"
  else if badLast (lastRaw s) then .error "NotADirectoryError"
  else match lookupFile fs (splitPath s) with
    | some bs => .ok bs
    | none => .error "FileNotFoundError"

/-- The name under which `q` is an immediate child of `p`, if it is one. -/
def childOf? (p q : FsPath) : Option String :=
  if q.take p.length = p then
    match q.drop p.length with
    | [n] => some n
    | _ => none
  else none

/-- Model of `os.listdir`: names of the immediate children of `p` (the
enumeration order of the OS is arbitrary; this model lists directories
first in store order, then files in store order). -/
def listdirFS (fs : FS) (p : FsPath) : List String :=
  ((fs.dirs.filterMap (fun q => childOf? p q)) ++ (fs.files.filterMap (fun e => childOf? p e.1))).dedup

/-- One entry of a directory listing as built by `list_dir`. -/
structure FSItem where
  name : String
  type : String
  size : Nat
  modified : Int
deriving DecidableEq

/-- The listing entry for child `n` of directory `p`, with `os.stat`
answers for directory sizes and modification times supplied by the
oracle `st`. -/
def mkItem (fs : FS) (st : FsPath → Nat × Int) (p : FsPath) (n : String) : FSItem :=
  let q := p ++ [n]
  if isDirB fs q then FSItem.mk n "dir" (st q).1 (st q).2
  else FSItem.mk n "file" ((lookupFile fs q).getD []).length (st q).2

/-- Sort rank of the Python key `(0 if type == "dir" else 1, ...)`. -/
def itemRank (x : FSItem) : Nat := if x.type = "dir" then 0 else 1

/-- Python string `<`: lexicographic comparison of code points. -/
def strLtB : List Char → List Char → Bool
  | [], [] => false
  | [], _ :: _ => true
  | _ :: _, [] => false
  | c :: cs, d :: ds => if c.toNat = d.toNat then strLtB cs ds else decide (c.toNat < d.toNat)

/-- Python string `<=` (`a <= b` iff not `b < a`). -/
def strLeB (a b : List Char) : Bool := ! strLtB b a

theorem strLtB_asymm : ∀ a b : List Char, strLtB a b = true → strLtB b a = false := by
  intro a
  induction a with
  | nil =>
    intro b h
    cases b with
    | nil => exact absurd h (by simp [strLtB])
    | cons d ds => simp [strLtB]
  | cons c cs ih =>
    intro b h
    cases b with
    | nil => exact absurd h (by simp [strLtB])
    | cons d ds =>
      unfold strLtB at h ⊢
      by_cases he : c.toNat = d.toNat
      · rw [if_pos he] at h
        rw [if_pos he.symm]
        exact ih ds h
      · rw [if_neg he] at h
        rw [if_neg (fun h0 => he h0.symm)]
        simp at h ⊢
        omega

theorem strLtB_connex : ∀ a b : List Char, strLtB a b = false → strLtB b a = true ∨ a = b := by
  intro a
  induction a with
  | nil =>
    intro b h
    cases b with
    | nil => exact Or.inr rfl
    | cons d ds => exact absurd h (by simp [strLtB])
  | cons c cs ih =>
    intro b h
    cases b with
    | nil => exact Or.inl (by simp [strLtB])
    | cons d ds =>
      unfold strLtB at h ⊢
      by_cases he : c.toNat = d.toNat
      · rw [if_pos he] at h
        rw [if_pos he.symm]
        rcases ih ds h with h1 | h1
        · exact Or.inl h1
        · refine Or.inr ?_
          have hc : c = d := by
            rw [← Char.ofNat_toNat c, ← Char.ofNat_toNat d, he]
          rw [hc, h1]
      · rw [if_neg he] at h
        rw [if_neg (fun h0 => he h0.symm)]
        simp at h ⊢
        omega

theorem strLtB_trans : ∀ a b c : List Char,
    strLtB a b = true → strLtB b c = true → strLtB a c = true := by
  intro a
  induction a with
  | nil =>
    intro b c hab hbc
    cases b with
    | nil => exact absurd hab (by simp [strLtB])
    | cons d ds =>
      cases c with
      | nil => exact absurd hbc (by simp [strLtB])
      | cons e es => simp [strLtB]
  | cons x xs ih =>
    intro b c hab hbc
    cases b with
    | nil => exact absurd hab (by simp [strLtB])
    | cons d ds =>
      cases c with
      | nil => exact absurd hbc (by simp [strLtB])
      | cons e es =>
        unfold strLtB at hab hbc ⊢
        by_cases h1 : x.toNat = d.toNat
        · rw [if_pos h1] at hab
          by_cases h2 : d.toNat = e.toNat
          · rw [if_pos h2] at hbc
            rw [if_pos (h1.trans h2)]
            exact ih ds es hab hbc
          · rw [if_neg h2] at hbc
            rw [if_neg (by omega)]
            simp at hbc ⊢
            omega
        · rw [if_neg h1] at hab
          simp at hab
          by_cases h2 : d.toNat = e.toNat
          · rw [if_neg (by omega)]
            simp
            omega
          · rw [if_neg h2] at hbc
            simp at hbc
            rw [if_neg (by omega)]
            simp
            omega

/-- The ordering `list_dir` sorts by: the Python tuple key
`(0 if dir else 1, name.lower())` compared lexicographically, with
Python string comparison by code points. -/
def itemLeP (a b : FSItem) : Prop :=
  itemRank a < itemRank b ∨
    (itemRank a = itemRank b ∧ strLeB (lowerStr a.name).data (lowerStr b.name).data = true)

instance itemLeDecidable : DecidableRel itemLeP := fun a b =>
  inferInstanceAs (Decidable (itemRank a < itemRank b ∨
    (itemRank a = itemRank b ∧ strLeB (lowerStr a.name).data (lowerStr b.name).data = true)))

instance itemLeTotal : IsTotal FSItem itemLeP := by
  constructor
  intro a b
  unfold itemLeP
  rcases Nat.lt_trichotomy (itemRank a) (itemRank b) with h | h | h
  · exact Or.inl (Or.inl h)
  · by_cases hs : strLtB (lowerStr b.name).data (lowerStr a.name).data = true
    · refine Or.inr (Or.inr ⟨h.symm, ?_⟩)
      unfold strLeB
      rw [strLtB_asymm _ _ hs]
      rfl
    · refine Or.inl (Or.inr ⟨h, ?_⟩)
      unfold strLeB
      simp at hs
      rw [hs]
      rfl
  · exact Or.inr (Or.inl h)

instance itemLeTrans : IsTrans FSItem itemLeP := by
  constructor
  intro a b c hab hbc
  unfold itemLeP at *
  rcases hab with h1 | ⟨h1, hs1⟩
  · rcases hbc with h2 | ⟨h2, _⟩
    · exact Or.inl (h1.trans h2)
    · exact Or.inl (h2 ▸ h1)
  · rcases hbc with h2 | ⟨h2, hs2⟩
    · exact Or.inl (h1 ▸ h2)
    · refine Or.inr ⟨h1.trans h2, ?_⟩
      unfold strLeB at hs1 hs2 ⊢
      simp at hs1 hs2 ⊢
      by_contra hca
      rw [Bool.not_eq_false] at hca
      rcases strLtB_connex _ _ hs2 with h3 | h3
      · rw [strLtB_trans _ _ _ h3 hca] at hs1
        exact absurd hs1 (by simp)
      · rw [h3] at hca
        rw [hca] at hs1
        exact absurd hs1 (by simp)

/-- An HTTP error response (`fastapi.HTTPException`): status code and
detail string. -/
structure HTTPError where
  status : Nat
  detail : String
deriving DecidableEq

/-- Rendering `str(e)` of a `starlette HTTPException`, as it appears when
a handler's blanket `except Exception` catches one. -/
def strOfHTTPException (code : Nat) (detail : String) : String :=
  natRepr code ++ ": " ++ detail

/-- Model of `verify_token` (src/main.py lines 29-31): the request header
`X-Sandbox-Token` (absent = `none`) must equal the configured secret
exactly, else HTTP 403. -/
def verify_token (x_sandbox_token : Option String) (sandbox_token : String) : Except HTTPError Unit :=
  if x_sandbox_token ≠ some sandbox_token then .error (HTTPError.mk 403 "Invalid X-Sandbox-Token")
  else .ok ()

/-- Model of `Depends(verify_token)` guarding a handler: the dependency
runs before the handler, so on a bad token the handler never runs and the
filesystem state is returned unchanged (no side effect). -/
def withAuth {α : Type} (token : Option String) (secret : String) (fs : FS)
    (handler : FS → Except HTTPError α × FS) : Except HTTPError α × FS :=
  match verify_token token secret with
  | .error e => (.error e, fs)
  | .ok _ => handler fs

/-- Response of `/write`. -/
structure WriteResp where
  status : String
  path : String
deriving DecidableEq

/-- Model of `write_file` (src/main.py lines 151-170): resolve the path,
create missing parent directories, write the UTF-8 encoding of the
content; any OS failure becomes HTTP 500. -/
def write_file (workspace path content : String) (fs : FS) : Except HTTPError WriteResp × FS :=
  let full_path := resolvePath workspace path
  match makedirsS fs (dirnameStr full_path) with
  | .error e => (.error (HTTPError.mk 500 e), fs)
  | .ok fs1 =>
    match openWrite full_path (utf8Encode content) fs1 with
    | .error e => (.error (HTTPError.mk 500 e), fs1)
    | .ok fs2 => (.ok (WriteResp.mk "success" full_path), fs2)

/-- Model of `read_file` (src/main.py lines 172-188): resolve the path;
if nothing exists there an `HTTPException(404, "File not found")` is
raised inside the `try` block, and the handler's blanket
`except Exception` (there is no `except HTTPException: raise` guard in
this handler) catches it and re-raises it as HTTP 500 whose detail is
`str(e)`; otherwise the file is read and decoded with `errors='replace'`
and universal-newline translation. -/
def read_file (workspace path : String) (fs : FS) : Except HTTPError String :=
  let full_path := resolvePath workspace path
  if ! existsS fs full_path then
    .error (HTTPError.mk 500 (strOfHTTPException 404 "File not found"))
  else
    match openRead full_path fs with
    | .error e => .error (HTTPError.mk 500 e)
    | .ok bs => .ok (String.mk (univNl (utf8Decode bs)))

/-- Response of `/list`. -/
structure DirListing where
  path : String
  items : List FSItem
deriving DecidableEq

/-- Model of `list_dir` (src/main.py lines 192-225): 404 when nothing is
at the resolved path, 400 when it is not a directory, otherwise the
children with name/type/size/mtime sorted by
`(0 if dir else 1, name.lower())`.  Python `list.sort` is stable, so it
is modelled by insertion sort on the same key, which computes the same
list. -/
def list_dir (workspace path : String) (st : FsPath → Nat × Int) (fs : FS) :
    Except HTTPError DirListing :=
  let full_path := resolvePath workspace path
  if ! existsS fs full_path then .error (HTTPError.mk 404 "Path not found")
  else if ! isdirS fs full_path then .error (HTTPError.mk 400 "Path is not a directory")
  else
    let items := (listdirFS fs (splitPath full_path)).map (mkItem fs st (splitPath full_path))
    .ok (DirListing.mk full_path (items.insertionSort itemLeP))

/-- Response of `/delete`. -/
structure DeleteResp where
  status : String
  deleted : String
deriving DecidableEq

/-- Model of `delete_path` (src/main.py lines 227-248): 404 when nothing
is at the resolved path (re-raised intact thanks to the
`except HTTPException: raise` guard), recursive removal for a directory,
plain removal for a file. -/
def delete_path (workspace path : String) (fs : FS) : Except HTTPError DeleteResp × FS :=
  let full_path := resolvePath workspace path
  if ! existsS fs full_path then (.error (HTTPError.mk 404 "Path not found"), fs)
  else if isdirS fs full_path then
    (.ok (DeleteResp.mk "success" full_path), rmtree fs (splitPath full_path))
  else
    (.ok (DeleteResp.mk "success" full_path), removeFile fs (splitPath full_path))

/-- Response of `/upload`. -/
structure UploadResp where
  path : String
  size : Nat
deriving DecidableEq

/-- The candidate name `f"{name}_{counter}{ext}"` tried by the upload
collision loop. -/
def candName (name ext : String) (n : Nat) : String := name ++ "_" ++ natRepr n ++ ext

/-- Total number of stored entries; one more than this bounds how many
collision candidates can already exist. -/
def fsSize (fs : FS) : Nat := fs.files.length + fs.dirs.length

/-- The upload collision loop `while os.path.exists(target_path)` with
counters 1, 2, ...: returns the first counter whose candidate is free.
The loop of the source is unbounded; here fuel `fsSize fs + 1` is passed
by `uploadTargetS`, which is enough since the candidates are pairwise
distinct and the store is finite (`scanFree`). -/
def scan (fs : FS) (target_dir name ext : String) : Nat → Nat → Nat
  | 0, c => c
  | fuel + 1, c =>
    if existsS fs (osJoin target_dir (candName name ext c)) then
      scan fs target_dir name ext fuel (c + 1)
    else c

/-- The path `/upload` finally stores to (src/main.py lines 263-269):
the plain `os.path.join(target_dir, filename)` when free, otherwise the
first free numbered candidate. -/
def uploadTargetS (fs : FS) (target_dir filename : String) : String :=
  if existsS fs (osJoin target_dir filename) then
    let ne := splitext filename
    osJoin target_dir (candName ne.1 ne.2 (scan fs target_dir ne.1 ne.2 (fsSize fs + 1) 1))
  else osJoin target_dir filename

/-- The directory `/upload` stores into: `os.path.join(WORKSPACE, subdir)`
when a subdirectory was given (Python truthiness: nonempty), else the
workspace root. -/
def uploadTargetDir (workspace subdir : String) : String :=
  if subdir ≠ "" then osJoin workspace subdir else workspace

/-- Model of `upload_file` (src/main.py lines 250-278): create the target
directory, default the filename to "uploaded_file" when the client sent
none or an empty one (`file.filename or "uploaded_file"`), resolve
collisions by the numbered-candidate loop, write the raw bytes, and
answer with the path relative to the workspace and the byte count. -/
def upload_file (workspace : String) (filename : Option String) (content : List Nat)
    (subdir : String) (fs : FS) : Except HTTPError UploadResp × FS :=
  let target_dir := uploadTargetDir workspace subdir
  match makedirsS fs target_dir with
  | .error e => (.error (HTTPError.mk 500 e), fs)
  | .ok fs1 =>
    let fname := match filename with
      | none => "uploaded_file"
      | some f => if f = "" then "uploaded_file" else f
    let target_path := uploadTargetS fs1 target_dir fname
    match openWrite target_path content fs1 with
    | .error e => (.error (HTTPError.mk 500 e), fs1)
    | .ok fs2 => (.ok (UploadResp.mk (relpathStr target_path workspace) content.length), fs2)

/-- The `LANGUAGE_RUNNERS` dict of src/main.py, in insertion order. -/
def LANGUAGE_RUNNERS : List (String × String) :=
  [("python", "python3"), ("python3", "python3"), ("py", "python3"),
   ("bash", "bash"), ("sh", "sh"),
   ("node", "node"), ("javascript", "node"), ("js", "node")]

/-- The `LANGUAGE_EXTENSIONS` dict of src/main.py, in insertion order. -/
def LANGUAGE_EXTENSIONS : List (String × String) :=
  [("python", ".py"), ("python3", ".py"), ("py", ".py"),
   ("bash", ".sh"), ("sh", ".sh"),
   ("node", ".js"), ("javascript", ".js"), ("js", ".js")]

/-- Dict lookup. -/
def lookupKey (l : List (String × String)) (k : String) : Option String :=
  (l.find? (fun e => decide (e.1 = k))).map (fun e => e.2)

/-- What the operating system did for a `subprocess.run` invocation: the
child completed with captured output and exit status, exceeded the
timeout (`subprocess.TimeoutExpired`), or failed to run at all. -/
inductive ExecOutcome
  | completed (stdout stderr : String) (exit_code : Int)
  | timedOut
  | failed (msg : String)
deriving DecidableEq

/-- Request body of `/run_code`. -/
structure RunCodeReq where
  language : String
  code : String
  timeout : Nat
deriving DecidableEq

/-- Response of `/run_code`. -/
structure RunCodeResp where
  stdout : String
  stderr : String
  exit_code : Int
  temp_file : String
deriving DecidableEq

/-- The detail string of the 400 answer for an unsupported language tag. -/
def unsupportedMsg (language : String) : String :=
  "Unsupported language: " ++ language ++ ". Supported: " ++
    pyStrListRepr (LANGUAGE_RUNNERS.map (fun e => e.1))

/-- Model of `run_code` (src/main.py lines 74-124): lower-case the tag and
reject unknown ones with 400 before anything happens; otherwise write the
code to `_run_{uuid}{ext}` in the workspace (the file is deliberately not
cleaned up afterwards), run the mapped interpreter — represented by the
`exec` outcome — and translate a timeout to 408 and any other failure to
500.  `uuid8` stands for the random `uuid.uuid4().hex[:8]` suffix. -/
def run_code (workspace : String) (req : RunCodeReq) (uuid8 : String) (exec : ExecOutcome)
    (fs : FS) : Except HTTPError RunCodeResp × FS :=
  let lang := lowerStr req.language
  match lookupKey LANGUAGE_RUNNERS lang with
  | none => (.error (HTTPError.mk 400 (unsupportedMsg req.language)), fs)
  | some _ =>
    let ext := (lookupKey LANGUAGE_EXTENSIONS lang).getD ""
    let temp_filename := "_run_" ++ uuid8 ++ ext
    let temp_path := osJoin workspace temp_filename
    match openWrite temp_path (utf8Encode req.code) fs with
    | .error e => (.error (HTTPError.mk 500 e), fs)
    | .ok fs1 =>
      match exec with
      | .completed out err code => (.ok (RunCodeResp.mk out err code temp_filename), fs1)
      | .timedOut => (.error (HTTPError.mk 408 "Code execution timed out"), fs1)
      | .failed msg => (.error (HTTPError.mk 500 msg), fs1)

/-- The `/write` endpoint: `verify_token` dependency, then the handler. -/
def writeEndpoint (workspace secret : String) (token : Option String) (path content : String)
    (fs : FS) : Except HTTPError WriteResp × FS :=
  withAuth token secret fs (fun fs0 => write_file workspace path content fs0)

/-- The `/read` endpoint: `verify_token` dependency, then the handler. -/
def readEndpoint (workspace secret : String) (token : Option String) (path : String)
    (fs : FS) : Except HTTPError String × FS :=
  withAuth token secret fs (fun fs0 => (read_file workspace path fs0, fs0))

/-- The `/list` endpoint: `verify_token` dependency, then the handler. -/
def listEndpoint (workspace secret : String) (token : Option String) (path : String)
    (st : FsPath → Nat × Int) (fs : FS) : Except HTTPError DirListing × FS :=
  withAuth token secret fs (fun fs0 => (list_dir workspace path st fs0, fs0))

/-- The `/delete` endpoint: `verify_token` dependency, then the handler. -/
def deleteEndpoint (workspace secret : String) (token : Option String) (path : String)
    (fs : FS) : Except HTTPError DeleteResp × FS :=
  withAuth token secret fs (fun fs0 => delete_path workspace path fs0)

/-- The `/upload` endpoint: `verify_token` dependency, then the handler. -/
def uploadEndpoint (workspace secret : String) (token : Option String)
    (filename : Option String) (content : List Nat) (subdir : String)
    (fs : FS) : Except HTTPError UploadResp × FS :=
  withAuth token secret fs (fun fs0 => upload_file workspace filename content subdir fs0)

/-- The `/run_code` endpoint: `verify_token` dependency, then the handler. -/
def runCodeEndpoint (workspace secret : String) (token : Option String) (req : RunCodeReq)
    (uuid8 : String) (exec : ExecOutcome) (fs : FS) : Except HTTPError RunCodeResp × FS :=
  withAuth token secret fs (fun fs0 => run_code workspace req uuid8 exec fs0)

theorem strMkData (s : String) : String.mk s.data = s := by
  cases s
  rfl

/-- A path component that the resolution treats as a plain name: nonempty,
not "." or "..", and free of slashes. -/
def goodComp (c : String) : Prop :=
  c ≠ "" ∧ c ≠ "." ∧ c ≠ ".." ∧ ∀ ch ∈ c.data, ch ≠ '/'

theorem splitAux_append_slash (a b : List Char) (acc : List Char) :
    splitAux (a ++ '/' :: b) acc = splitAux a acc ++ splitRaw b := by
  induction a generalizing acc with
  | nil => simp [splitAux, splitRaw]
  | cons c cs ih =>
    by_cases hc : c = '/'
    · simp [splitAux, hc, ih]
    · simp [splitAux, hc, ih]

theorem splitAux_no_slash (l : List Char) (acc : List Char) (h : ∀ c ∈ l, c ≠ '/') :
    splitAux l acc = [String.mk (acc.reverse ++ l)] := by
  induction l generalizing acc with
  | nil => simp [splitAux]
  | cons c cs ih =>
    have hc : c ≠ '/' := h c (by simp)
    rw [splitAux, if_neg hc, ih (c :: acc) (fun x hx => h x (by simp [hx]))]
    simp

theorem splitRaw_no_slash (s : String) (h : ∀ c ∈ s.data, c ≠ '/') :
    splitRaw s.data = [s] := by
  rw [splitRaw, splitAux_no_slash s.data [] h]
  simp [strMkData]

theorem normComps_append (xs ys : List String) :
    normComps (xs ++ ys) =
      ys.foldl (fun acc c => if c = "" ∨ c = "." then acc else if c = ".." then acc.dropLast else acc ++ [c]) (normComps xs) := by
  simp [normComps, List.foldl_append]

theorem normComps_concat_good (xs : List String) (c : String)
    (h1 : ¬ (c = "" ∨ c = ".")) (h2 : c ≠ "..") :
    normComps (xs ++ [c]) = normComps xs ++ [c] := by
  rw [normComps_append]
  simp [h1, h2]

theorem normComps_concat_skip (xs : List String) (c : String) (h : c = "" ∨ c = ".") :
    normComps (xs ++ [c]) = normComps xs := by
  rw [normComps_append]
  simp [h]

theorem isabs_of_goodComp (c : String) (hc : goodComp c) : isabs c = false := by
  rcases hc with ⟨hne, -, -, hsl⟩
  unfold isabs
  cases hd : c.data with
  | nil => rfl
  | cons x xs =>
    have : x ≠ '/' := hsl x (by simp [hd])
    simp [this]

theorem data_osJoin_of_goodComp (t c : String) (hc : goodComp c) :
    ∃ X : List String, splitRaw (osJoin t c).data = X ++ [c] ∧ normComps X = splitPath t := by
  have hni : ¬ isabs c = true := by simp [isabs_of_goodComp c hc]
  unfold osJoin
  rw [if_neg hni]
  by_cases ht : t = "" ∨ endsSlash t = true
  · rw [if_pos ht]
    rcases ht with ht | ht
    · refine ⟨[], ?_, ?_⟩
      · rw [show (t ++ c).data = c.data by simp [ht], splitRaw_no_slash c hc.2.2.2]
        simp
      · rw [ht]
        rfl
    · have hne : t.data ≠ [] := by
        intro h0
        unfold endsSlash at ht
        rw [h0] at ht
        simp at ht
      obtain ⟨l', hl'⟩ : ∃ l', t.data = l' ++ ['/'] := by
        refine ⟨t.data.dropLast, ?_⟩
        have hlast : t.data.getLast hne = '/' := by
          unfold endsSlash at ht
          rw [List.getLast?_eq_getLast t.data hne] at ht
          simpa using ht
        conv_lhs => rw [← List.dropLast_append_getLast hne, hlast]
      refine ⟨splitRaw l', ?_, ?_⟩
      · rw [show (t ++ c).data = l' ++ '/' :: c.data by simp [hl']]
        rw [splitRaw, splitAux_append_slash l' c.data []]
        rw [splitRaw_no_slash c hc.2.2.2]
        rfl
      · have hsp : splitRaw (l' ++ ['/']) = splitRaw l' ++ [""] := by
          rw [show l' ++ ['/'] = l' ++ '/' :: ([] : List Char) by simp]
          rw [splitRaw, splitAux_append_slash l' [] []]
          rfl
        unfold splitPath
        rw [hl', hsp, normComps_concat_skip _ _ (Or.inl rfl)]
  · rw [if_neg ht]
    refine ⟨splitRaw t.data, ?_, rfl⟩
    rw [show (t ++ "/" ++ c).data = t.data ++ '/' :: c.data by simp]
    rw [splitRaw, splitAux_append_slash t.data c.data []]
    rw [splitRaw_no_slash c hc.2.2.2]
    rfl

theorem splitPath_osJoin (t c : String) (hc : goodComp c) :
    splitPath (osJoin t c) = splitPath t ++ [c] := by
  have hgood1 : ¬ (c = "" ∨ c = ".") := by
    rcases hc with ⟨h1, h2, -, -⟩
    simp [h1, h2]
  obtain ⟨X, hX, hN⟩ := data_osJoin_of_goodComp t c hc
  unfold splitPath
  rw [hX, normComps_concat_good _ _ hgood1 hc.2.2.1, hN]
  rfl

theorem lastRaw_osJoin (t c : String) (hc : goodComp c) :
    lastRaw (osJoin t c) = c := by
  obtain ⟨X, hX, -⟩ := data_osJoin_of_goodComp t c hc
  unfold lastRaw
  rw [hX]
  simp

theorem digitChar_ne_slash (d : Nat) (h : d < 10) : digitChar d ≠ '/' := by
  interval_cases d <;> decide

theorem natRepr_no_slash (n : Nat) : ∀ ch ∈ (natRepr n).data, ch ≠ '/' := by
  intro ch hch
  rw [show (natRepr n).data = natDigitsAux (n + 1) n from rfl, natDigitsAux_eq_map] at hch
  obtain ⟨d, hd, rfl⟩ := List.mem_map.1 hch
  exact digitChar_ne_slash d (natDigitsN_lt_ten (n + 1) n d hd)

theorem data_candName (name ext : String) (n : Nat) :
    (candName name ext n).data = name.data ++ '_' :: ((natRepr n).data ++ ext.data) := by
  unfold candName
  simp

theorem goodComp_candName (name ext : String) (hn : ∀ ch ∈ name.data, ch ≠ '/')
    (he : ∀ ch ∈ ext.data, ch ≠ '/') (n : Nat) : goodComp (candName name ext n) := by
  have hdata := data_candName name ext n
  have hmem : '_' ∈ (candName name ext n).data := by
    rw [hdata]
    simp
  refine ⟨?_, ?_, ?_, ?_⟩
  · intro h0
    rw [h0] at hmem
    simp at hmem
  · intro h0
    rw [h0] at hmem
    simp at hmem
  · intro h0
    rw [h0] at hmem
    simp at hmem
  · intro ch hch
    rw [hdata] at hch
    rcases List.mem_append.1 hch with h1 | h1
    · exact hn ch h1
    · rcases List.mem_cons.1 h1 with h2 | h2
      · rw [h2]; decide
      · rcases List.mem_append.1 h2 with h3 | h3
        · exact natRepr_no_slash n ch h3
        · exact he ch h3

theorem candName_inj (name ext : String) {m n : Nat}
    (h : candName name ext m = candName name ext n) : m = n := by
  have hd : (candName name ext m).data = (candName name ext n).data := congrArg String.data h
  rw [data_candName, data_candName] at hd
  have h1 := List.append_cancel_left hd
  have h2 := List.cons_injective h1
  have h3 : (natRepr m).data = (natRepr n).data := List.append_cancel_right h2
  have h4 : natRepr m = natRepr n := by
    rw [← strMkData (natRepr m), ← strMkData (natRepr n), h3]
  exact natRepr_inj h4

theorem splitext_append (f : String) : (splitext f).1 ++ (splitext f).2 = f := by
  have h : (splitextData f.data).1 ++ (splitextData f.data).2 = f.data := by
    unfold splitextData
    rcases hfi : f.data.reverse.findIdx? (fun c => c = '.') with - | j
    · simp
    · simp only []
      split
      · simp [List.take_append_drop]
      · simp
  calc (splitext f).1 ++ (splitext f).2
      = String.mk ((splitextData f.data).1 ++ (splitextData f.data).2) := by
        unfold splitext
        cases hsd : splitextData f.data
        rfl
  _ = f := by rw [h, strMkData]

theorem splitext_no_slash (f : String) (h : ∀ ch ∈ f.data, ch ≠ '/') :
    (∀ ch ∈ (splitext f).1.data, ch ≠ '/') ∧ (∀ ch ∈ (splitext f).2.data, ch ≠ '/') := by
  have hsub : ∀ ch, ch ∈ (splitextData f.data).1 ∨ ch ∈ (splitextData f.data).2 → ch ∈ f.data := by
    intro ch hch
    unfold splitextData at hch
    rcases hfi : f.data.reverse.findIdx? (fun c => c = '.') with - | j <;> rw [hfi] at hch
    · rcases hch with h1 | h1
      · simpa using h1
      · simp at h1
    · simp only [] at hch
      split at hch
      · rcases hch with h1 | h1
        · exact List.take_subset _ _ h1
        · exact List.drop_subset _ _ h1
      · rcases hch with h1 | h1
        · simpa using h1
        · simp at h1
  constructor
  · intro ch hch
    exact h ch (hsub ch (Or.inl hch))
  · intro ch hch
    exact h ch (hsub ch (Or.inr hch))

theorem find?_filter_keep {α : Type} (l : List α) (P Q : α → Bool)
    (h : ∀ a, P a = true → Q a = true) : (l.filter Q).find? P = l.find? P := by
  induction l with
  | nil => rfl
  | cons a l ih =>
    by_cases hq : Q a = true
    · rw [List.filter_cons_of_pos hq]
      by_cases hp : P a = true
      · rw [List.find?_cons_of_pos _ hp, List.find?_cons_of_pos _ hp]
      · rw [List.find?_cons_of_neg _ hp, List.find?_cons_of_neg _ hp, ih]
    · have hp : ¬ P a = true := fun hpa => hq (h a hpa)
      rw [List.filter_cons_of_neg hq, ih, List.find?_cons_of_neg _ hp]

theorem find?_filter_none {α : Type} (l : List α) (P Q : α → Bool)
    (h : ∀ a, P a = true → Q a = false) : (l.filter Q).find? P = none := by
  rw [List.find?_eq_none]
  intro x hx
  rcases List.mem_filter.1 hx with ⟨-, hq⟩
  intro hp
  rw [h x hp] at hq
  exact absurd hq (by simp)

theorem lookupFile_setFile_self (fs : FS) (p : FsPath) (c : List Nat) :
    lookupFile (setFile fs p c) p = some c := by
  unfold lookupFile setFile
  rw [List.find?_cons_of_pos _ (by simp)]
  rfl

theorem lookupFile_setFile_other (fs : FS) (p : FsPath) (c : List Nat) (q : FsPath)
    (h : q ≠ p) : lookupFile (setFile fs p c) q = lookupFile fs q := by
  unfold lookupFile setFile
  rw [List.find?_cons_of_neg _ (by simp; exact fun h0 => absurd h0.symm h)]
  rw [find?_filter_keep _ _ _ ?_]
  intro a ha
  simp at ha ⊢
  rw [ha]
  exact h

theorem lookupFile_removeFile_self (fs : FS) (p : FsPath) :
    lookupFile (removeFile fs p) p = none := by
  unfold lookupFile removeFile
  rw [find?_filter_none _ _ _ ?_]
  · rfl
  · intro a ha
    simp at ha ⊢
    exact ha

theorem lookupFile_removeFile_other (fs : FS) (p : FsPath) (q : FsPath) (h : q ≠ p) :
    lookupFile (removeFile fs p) q = lookupFile fs q := by
  unfold lookupFile removeFile
  rw [find?_filter_keep _ _ _ ?_]
  intro a ha
  simp at ha ⊢
  rw [ha]
  exact h

theorem isPref_refl (p : FsPath) : isPref p p = true := by
  induction p with
  | nil => rfl
  | cons a as ih => simp [isPref, ih]

theorem lookupFile_rmtree_of_pref (fs : FS) (p q : FsPath) (h : isPref p q = true) :
    lookupFile (rmtree fs p) q = none := by
  unfold lookupFile rmtree
  rw [find?_filter_none _ _ _ ?_]
  · rfl
  · intro a ha
    simp at ha ⊢
    rw [ha, h]

theorem lookupFile_rmtree_of_not_pref (fs : FS) (p q : FsPath) (h : isPref p q = false) :
    lookupFile (rmtree fs p) q = lookupFile fs q := by
  unfold lookupFile rmtree
  rw [find?_filter_keep _ _ _ ?_]
  intro a ha
  simp at ha ⊢
  rw [ha, h]

theorem mem_dirs_rmtree (fs : FS) (p q : FsPath) :
    q ∈ (rmtree fs p).dirs ↔ q ∈ fs.dirs ∧ isPref p q = false := by
  unfold rmtree
  simp [List.mem_filter]

/-- Every stored path of the filesystem. -/
def allPaths (fs : FS) : List FsPath := fs.dirs ++ fs.files.map (fun e => e.1)

theorem length_allPaths (fs : FS) : (allPaths fs).length = fsSize fs := by
  unfold allPaths fsSize
  simp
  omega

theorem mem_allPaths_of_pathExistsB (fs : FS) (p : FsPath) (h : pathExistsB fs p = true)
    (hne : p ≠ []) : p ∈ allPaths fs := by
  unfold pathExistsB isDirB isFileB lookupFile at h
  rcases Bool.or_eq_true_iff.1 h with h1 | h1
  · rcases of_decide_eq_true h1 with h2 | h2
    · exact absurd h2 hne
    · exact List.mem_append.2 (Or.inl h2)
  · rcases Option.isSome_iff_exists.1 h1 with ⟨c, hc⟩
    rcases Option.map_eq_some'.1 hc with ⟨e, he, -⟩
    have hmem := List.mem_of_find?_eq_some he
    have heq : e.1 = p := by
      have hpred := List.find?_some he
      simpa using hpred
    refine List.mem_append.2 (Or.inr ?_)
    exact List.mem_map.2 ⟨e, hmem, heq⟩

theorem existsS_eq_pathExistsB_of_goodComp (fs : FS) (t c : String) (hc : goodComp c) :
    existsS fs (osJoin t c) = pathExistsB fs (splitPath t ++ [c]) := by
  unfold existsS
  rw [lastRaw_osJoin t c hc, splitPath_osJoin t c hc]
  have : badLast c = false := by
    rcases hc with ⟨h1, h2, h3, -⟩
    unfold badLast
    simp [h1, h2, h3]
  rw [this]
  simp

theorem scan_ge (fs : FS) (tdir name ext : String) :
    ∀ fuel c, c ≤ scan fs tdir name ext fuel c := by
  intro fuel
  induction fuel with
  | zero => intro c; simp [scan]
  | succ fuel ih =>
    intro c
    unfold scan
    by_cases h : existsS fs (osJoin tdir (candName name ext c)) = true
    · rw [if_pos h]
      exact le_trans (Nat.le_succ c) (ih (c + 1))
    · rw [if_neg h]

theorem scan_free (fs : FS) (tdir name ext : String) :
    ∀ fuel c, (∃ k, k < fuel ∧ existsS fs (osJoin tdir (candName name ext (c + k))) = false) →
      existsS fs (osJoin tdir (candName name ext (scan fs tdir name ext fuel c))) = false := by
  intro fuel
  induction fuel with
  | zero =>
    intro c h
    obtain ⟨k, hk, -⟩ := h
    omega
  | succ fuel ih =>
    intro c h
    obtain ⟨k, hk, hfree⟩ := h
    unfold scan
    by_cases h : existsS fs (osJoin tdir (candName name ext c)) = true
    · rw [if_pos h]
      apply ih (c + 1)
      have hk0 : k ≠ 0 := by
        intro h0
        rw [h0] at hfree
        simp at hfree
        rw [hfree] at h
        exact absurd h (by simp)
      exact ⟨k - 1, by omega, by rw [show c + 1 + (k - 1) = c + k by omega]; exact hfree⟩
    · rw [if_neg h]
      simpa using h

theorem exists_free_candidate (fs : FS) (tdir name ext : String)
    (hn : ∀ ch ∈ name.data, ch ≠ '/') (he : ∀ ch ∈ ext.data, ch ≠ '/') :
    ∃ k, k < fsSize fs + 1 ∧ existsS fs (osJoin tdir (candName name ext (1 + k))) = false := by
  by_contra hall
  push_neg at hall
  have hall' : ∀ k, k < fsSize fs + 1 →
      existsS fs (osJoin tdir (candName name ext (1 + k))) = true := by
    intro k hk
    have := hall k hk
    revert this
    cases existsS fs (osJoin tdir (candName name ext (1 + k))) <;> simp
  have hg : Function.Injective (fun k : Nat => splitPath tdir ++ [candName name ext (1 + k)]) := by
    intro k1 k2 h12
    simp only [List.append_cancel_left_eq, List.cons.injEq] at h12
    have := candName_inj name ext h12.1
    omega
  set L := (List.range (fsSize fs + 1)).map
    (fun k => splitPath tdir ++ [candName name ext (1 + k)]) with hL
  have hnodup : L.Nodup := List.Nodup.map hg (List.nodup_range _)
  have hsub : ∀ x ∈ L, x ∈ allPaths fs := by
    intro x hx
    rcases List.mem_map.1 hx with ⟨k, hk, rfl⟩
    have hk' : k < fsSize fs + 1 := List.mem_range.1 hk
    have hgood := goodComp_candName name ext hn he (1 + k)
    have hex := hall' k hk'
    rw [existsS_eq_pathExistsB_of_goodComp fs tdir _ hgood] at hex
    exact mem_allPaths_of_pathExistsB fs _ hex (by simp)
  have hlen : L.length = fsSize fs + 1 := by
    rw [hL]
    simp
  have hcard1 : L.toFinset.card = fsSize fs + 1 := by
    rw [List.toFinset_card_of_nodup hnodup, hlen]
  have hcard2 : L.toFinset ⊆ (allPaths fs).toFinset := by
    intro x hx
    exact List.mem_toFinset.2 (hsub x (List.mem_toFinset.1 hx))
  have := Finset.card_le_card hcard2
  have h2 := List.toFinset_card_le (l := allPaths fs)
  rw [length_allPaths] at h2
  omega

theorem makedirsP_ok {fs fs1 : FS} {p : FsPath} (h : makedirsP fs p = .ok fs1) :
    fs1.files = fs.files ∧ fs1.dirs = p.inits ++ fs.dirs := by
  unfold makedirsP at h
  split at h
  · exact absurd h (by simp)
  · cases h
    exact ⟨rfl, rfl⟩

theorem lookupFile_makedirsP {fs fs1 : FS} {p : FsPath} (h : makedirsP fs p = .ok fs1)
    (q : FsPath) : lookupFile fs1 q = lookupFile fs q := by
  unfold lookupFile
  rw [(makedirsP_ok h).1]

theorem isDirB_makedirsP_self {fs fs1 : FS} {p : FsPath} (h : makedirsP fs p = .ok fs1) :
    isDirB fs1 p = true := by
  unfold isDirB
  rw [(makedirsP_ok h).2]
  have hp : p ∈ p.inits := (List.mem_inits p p).2 (List.prefix_refl p)
  simp [hp]

theorem isDirB_mono_makedirsP {fs fs1 : FS} {p : FsPath} (h : makedirsP fs p = .ok fs1)
    (q : FsPath) (hq : isDirB fs q = true) : isDirB fs1 q = true := by
  unfold isDirB at hq ⊢
  rw [(makedirsP_ok h).2]
  rcases of_decide_eq_true hq with h1 | h1
  · simp [h1]
  · simp [h1]

theorem pathExistsB_mono_makedirsP {fs fs1 : FS} {p : FsPath} (h : makedirsP fs p = .ok fs1)
    (q : FsPath) (hq : pathExistsB fs q = true) : pathExistsB fs1 q = true := by
  unfold pathExistsB at hq ⊢
  rcases Bool.or_eq_true_iff.1 hq with h1 | h1
  · rw [isDirB_mono_makedirsP h q h1]
    simp
  · unfold isFileB at h1 ⊢
    rw [lookupFile_makedirsP h q, h1]
    simp

theorem pathExistsB_mono_setFile (fs : FS) (p : FsPath) (c : List Nat)
    (q : FsPath) (hq : pathExistsB fs q = true) : pathExistsB (setFile fs p c) q = true := by
  unfold pathExistsB at hq ⊢
  by_cases hqp : q = p
  · subst hqp
    unfold isFileB
    rw [lookupFile_setFile_self]
    simp
  · rcases Bool.or_eq_true_iff.1 hq with h1 | h1
    · apply Bool.or_eq_true_iff.2
      left
      unfold isDirB at h1 ⊢
      unfold setFile
      exact h1
    · unfold isFileB at h1 ⊢
      rw [lookupFile_setFile_other fs p c q hqp, h1]
      simp

theorem dirs_setFile (fs : FS) (p : FsPath) (c : List Nat) : (setFile fs p c).dirs = fs.dirs := rfl

theorem openWrite_ok (t leaf : String) (content : List Nat) (fs : FS)
    (hl : goodComp leaf)
    (hnd : isDirB fs (splitPath t ++ [leaf]) = false)
    (hparent : isDirB fs (splitPath t) = true) :
    openWrite (osJoin t leaf) content fs = .ok (setFile fs (splitPath t ++ [leaf]) content) := by
  unfold openWrite
  rw [lastRaw_osJoin t leaf hl, splitPath_osJoin t leaf hl]
  have hbad : badLast leaf = false := by
    rcases hl with ⟨h1, h2, h3, -⟩
    unfold badLast
    simp [h1, h2, h3]
  rw [hbad, hnd]
  simp only [Bool.false_eq_true, if_false]
  rw [List.dropLast_concat, hparent]
  rfl

/-- What `uploadTargetS` finally picks: a good component under the target
directory, free in the store; the plain filename when it was free, else a
numbered candidate. -/
theorem uploadTargetS_spec (fs : FS) (tdir fname : String) (hf : goodComp fname) :
    ∃ leaf : String, uploadTargetS fs tdir fname = osJoin tdir leaf ∧ goodComp leaf
      ∧ existsS fs (osJoin tdir leaf) = false
      ∧ (leaf = fname ∨ ∃ n, 1 ≤ n ∧ leaf = candName (splitext fname).1 (splitext fname).2 n
            ∧ existsS fs (osJoin tdir fname) = true) := by
  unfold uploadTargetS
  by_cases hex : existsS fs (osJoin tdir fname) = true
  · rw [if_pos hex]
    have hn1 : ∀ ch ∈ (splitext fname).1.data, ch ≠ '/' := (splitext_no_slash fname hf.2.2.2).1
    have he1 : ∀ ch ∈ (splitext fname).2.data, ch ≠ '/' := (splitext_no_slash fname hf.2.2.2).2
    set c0 := scan fs tdir (splitext fname).1 (splitext fname).2 (fsSize fs + 1) 1 with hc0
    refine ⟨candName (splitext fname).1 (splitext fname).2 c0, rfl,
      goodComp_candName _ _ hn1 he1 c0, ?_, Or.inr ⟨c0, ?_, rfl, hex⟩⟩
    · rw [hc0]
      apply scan_free
      obtain ⟨k, hk, hfree⟩ := exists_free_candidate fs tdir _ _ hn1 he1
      exact ⟨k, hk, hfree⟩
    · rw [hc0]
      exact scan_ge fs tdir _ _ _ 1
  · rw [if_neg hex]
    refine ⟨fname, rfl, hf, ?_, Or.inl rfl⟩
    simpa using hex

theorem existsS_mono_makedirsP {fs fs1 : FS} {p : FsPath} (h : makedirsP fs p = .ok fs1)
    (s : String) (hs : existsS fs s = true) : existsS fs1 s = true := by
  unfold existsS at hs ⊢
  by_cases hb : badLast (lastRaw s) = true
  · rw [if_pos hb] at hs ⊢
    exact isDirB_mono_makedirsP h _ hs
  · rw [if_neg hb] at hs ⊢
    exact pathExistsB_mono_makedirsP h _ hs

theorem existsS_mono_setFile (fs : FS) (p : FsPath) (c : List Nat) (s : String)
    (hs : existsS fs s = true) : existsS (setFile fs p c) s = true := by
  unfold existsS at hs ⊢
  by_cases hb : badLast (lastRaw s) = true
  · rw [if_pos hb] at hs ⊢
    unfold isDirB at hs ⊢
    rw [dirs_setFile]
    exact hs
  · rw [if_neg hb] at hs ⊢
    exact pathExistsB_mono_setFile fs p c _ hs

theorem isFileB_of_lookup_some {fs : FS} {q : FsPath} {c : List Nat}
    (h : lookupFile fs q = some c) : isFileB fs q = true := by
  unfold isFileB
  rw [h]
  rfl

/-- Anatomy of a successful upload: the target directory was created, the
stored leaf is a good component that was free before the write, the new
state is exactly the old one plus that file, and the leaf is the plain
filename or a numbered candidate chosen because the plain name existed. -/
theorem upload_file_ok (workspace sub f : String) (content : List Nat) (fs fs' : FS)
    (r : UploadResp) (hf : goodComp f)
    (h : upload_file workspace (some f) content sub fs = (.ok r, fs')) :
    ∃ (fsm : FS) (leaf : String),
      makedirsS fs (uploadTargetDir workspace sub) = .ok fsm
      ∧ goodComp leaf
      ∧ existsS fsm (osJoin (uploadTargetDir workspace sub) leaf) = false
      ∧ fs' = setFile fsm (splitPath (uploadTargetDir workspace sub) ++ [leaf]) content
      ∧ (leaf = f ∨ ∃ n, 1 ≤ n ∧ leaf = candName (splitext f).1 (splitext f).2 n
            ∧ existsS fsm (osJoin (uploadTargetDir workspace sub) f) = true) := by
  simp only [upload_file] at h
  cases hm : makedirsS fs (uploadTargetDir workspace sub) with
  | error e =>
    rw [hm] at h
    simp at h
  | ok fsm =>
    rw [hm] at h
    simp only [] at h
    rw [if_neg hf.1] at h
    obtain ⟨leaf, heq, hgood, hfree, hform⟩ := uploadTargetS_spec fsm (uploadTargetDir workspace sub) f hf
    rw [heq] at h
    have hnd : isDirB fsm (splitPath (uploadTargetDir workspace sub) ++ [leaf]) = false := by
      rw [existsS_eq_pathExistsB_of_goodComp fsm _ leaf hgood] at hfree
      unfold pathExistsB at hfree
      rcases Bool.or_eq_false_iff.1 hfree with ⟨h1, -⟩
      exact h1
    rw [openWrite_ok _ leaf content fsm hgood hnd (by
      unfold makedirsS at hm
      exact isDirB_makedirsP_self hm)] at h
    simp at h
    exact ⟨fsm, leaf, rfl, hgood, hfree, h.2.symm, hform⟩

/-- Claim C1 (code bug): on a path whose resolved target does not exist,
`read_file` raises `HTTPException(404, "File not found")` inside its
`try` block, but the handler's own blanket `except Exception` catches it
(this handler lacks the `except HTTPException: raise` guard that
`list_dir` and `delete_path` have) and re-raises it as HTTP 500 with
detail `str(e)`; the claimed 404 never reaches the client.  Evaluated
here at the failing input: workspace `/workspace`, query
`path=missing.txt`, and a store without that file. -/
theorem read_file_missing_returns_500 :
    read_file "/workspace" "missing.txt" (FS.mk [] [["workspace"]]) =
      .error (HTTPError.mk 500 (strOfHTTPException 404 "File not found"))
    ∧ strOfHTTPException 404 "File not found" = "404: File not found" := by
  exact ⟨rfl, rfl⟩

/-- Claim C2: a protected endpoint runs its handler exactly when the
`X-Sandbox-Token` header equals the configured secret string; for any
other value — including an absent header — it answers 403 and the
filesystem state is returned untouched, so no side effect has occurred. -/
theorem auth_gate_spec {α : Type} (token : Option String) (secret : String) (fs : FS)
    (handler : FS → Except HTTPError α × FS) :
    (token = some secret → withAuth token secret fs handler = handler fs)
    ∧ (token ≠ some secret →
        withAuth token secret fs handler =
          (.error (HTTPError.mk 403 "Invalid X-Sandbox-Token"), fs)) := by
  constructor
  · intro h
    simp [withAuth, verify_token, h]
  · intro h
    simp [withAuth, verify_token, h]

theorem auth_gate_spec_witness :
    withAuth none "123456" (FS.mk [] [["workspace"]])
        (fun fs0 => delete_path "/workspace" "x" fs0) =
      (.error (HTTPError.mk 403 "Invalid X-Sandbox-Token"), FS.mk [] [["workspace"]])
    ∧ withAuth (some "123456") "123456" (FS.mk [] [["workspace"]])
        (fun fs0 => delete_path "/workspace" "x" fs0) =
      delete_path "/workspace" "x" (FS.mk [] [["workspace"]]) :=
  ⟨(auth_gate_spec none "123456" (FS.mk [] [["workspace"]])
      (fun fs0 => delete_path "/workspace" "x" fs0)).2 (by simp),
   (auth_gate_spec (some "123456") "123456" (FS.mk [] [["workspace"]])
      (fun fs0 => delete_path "/workspace" "x" fs0)).1 rfl⟩

/-- Claim C8: every caller-supplied path to the write/read/list/delete
handlers resolves through the same rule: an absolute path is used
verbatim — in particular the handlers' behavior is then independent of
the workspace root, i.e. no containment check happens — and a relative
path is joined under the workspace root. -/
theorem path_resolution_spec (workspace path content : String) (st : FsPath → Nat × Int)
    (fs : FS) :
    (isabs path = true →
      resolvePath workspace path = path
      ∧ ∀ w2 : String,
          read_file workspace path fs = read_file w2 path fs
          ∧ write_file workspace path content fs = write_file w2 path content fs
          ∧ list_dir workspace path st fs = list_dir w2 path st fs
          ∧ delete_path workspace path fs = delete_path w2 path fs)
    ∧ (isabs path = false → resolvePath workspace path = osJoin workspace path) := by
  constructor
  · intro h
    have e : ∀ w : String, resolvePath w path = path := fun w => by simp [resolvePath, h]
    refine ⟨e workspace, fun w2 => ⟨?_, ?_, ?_, ?_⟩⟩
    · unfold read_file
      rw [e workspace, e w2]
    · unfold write_file
      rw [e workspace, e w2]
    · unfold list_dir
      rw [e workspace, e w2]
    · unfold delete_path
      rw [e workspace, e w2]
  · intro h
    simp [resolvePath, h]

theorem path_resolution_spec_witness :
    (resolvePath "/workspace" "/etc/hosts" = "/etc/hosts"
      ∧ read_file "/workspace" "/etc/hosts" (FS.mk [] [["workspace"]]) =
          read_file "/somewhere/else" "/etc/hosts" (FS.mk [] [["workspace"]]))
    ∧ resolvePath "/workspace" "notes/a.txt" = osJoin "/workspace" "notes/a.txt" := by
  refine ⟨⟨?_, ?_⟩, ?_⟩
  · exact ((path_resolution_spec "/workspace" "/etc/hosts" "" (fun _ => (0, 0))
      (FS.mk [] [["workspace"]])).1 rfl).1
  · exact (((path_resolution_spec "/workspace" "/etc/hosts" "" (fun _ => (0, 0))
      (FS.mk [] [["workspace"]])).1 rfl).2 "/somewhere/else").1
  · exact (path_resolution_spec "/workspace" "notes/a.txt" "" (fun _ => (0, 0))
      (FS.mk [] [["workspace"]])).2 rfl

theorem substring_unsupportedMsg (lang t : String)
    (h : t.data <:+: (pyStrListRepr (LANGUAGE_RUNNERS.map (fun e => e.1))).data) :
    t.data <:+: (unsupportedMsg lang).data := by
  obtain ⟨s, t', hst⟩ := h
  refine ⟨("Unsupported language: " ++ lang ++ ". Supported: ").data ++ s, t', ?_⟩
  have : (unsupportedMsg lang).data =
      ("Unsupported language: " ++ lang ++ ". Supported: ").data ++
        (pyStrListRepr (LANGUAGE_RUNNERS.map (fun e => e.1))).data := by
    unfold unsupportedMsg
    simp
  rw [this, ← hst]
  simp

/-- Claim C6: `run_code` lower-cases the language tag; a tag outside the
supported dictionary is rejected with HTTP 400 before any side effect and
the detail message spells out every supported tag, while a tag whose
lower-cased form is supported can never produce a 400 answer. -/
theorem run_code_language_check (workspace : String) (req : RunCodeReq) (uuid8 : String)
    (exec : ExecOutcome) (fs : FS) :
    (lookupKey LANGUAGE_RUNNERS (lowerStr req.language) = none →
      run_code workspace req uuid8 exec fs =
          (.error (HTTPError.mk 400 (unsupportedMsg req.language)), fs)
      ∧ ∀ t ∈ LANGUAGE_RUNNERS.map (fun e => e.1),
          t.data <:+: (unsupportedMsg req.language).data)
    ∧ (∀ r, lookupKey LANGUAGE_RUNNERS (lowerStr req.language) = some r →
        ∀ err fs2, run_code workspace req uuid8 exec fs = (.error err, fs2) →
          err.status ≠ 400) := by
  constructor
  · intro h
    constructor
    · simp only [run_code]
      rw [h]
    · intro t ht
      apply substring_unsupportedMsg
      fin_cases ht <;> decide
  · intro r hr err fs2 heq
    simp only [run_code] at heq
    rw [hr] at heq
    simp only [] at heq
    cases hw : openWrite (osJoin workspace ("_run_" ++ uuid8 ++
        (lookupKey LANGUAGE_EXTENSIONS (lowerStr req.language)).getD ""))
        (utf8Encode req.code) fs with
    | error e =>
      rw [hw] at heq
      simp at heq
      rw [← heq.1]
      simp
    | ok fs1 =>
      rw [hw] at heq
      simp only [] at heq
      cases exec with
      | completed out errS code => simp at heq
      | timedOut =>
        simp at heq
        rw [← heq.1]
        simp
      | failed msg =>
        simp at heq
        rw [← heq.1]
        simp

theorem run_code_language_check_witness :
    run_code "/workspace" (RunCodeReq.mk "Ruby" "puts 1" 30) "abcd1234" ExecOutcome.timedOut
        (FS.mk [] [["workspace"]]) =
      (.error (HTTPError.mk 400 (unsupportedMsg "Ruby")), FS.mk [] [["workspace"]])
    ∧ (∀ t ∈ LANGUAGE_RUNNERS.map (fun e => e.1),
        t.data <:+: (unsupportedMsg "Ruby").data)
    ∧ (HTTPError.mk 408 "Code execution timed out").status ≠ 400 := by
  refine ⟨?_, ?_, ?_⟩
  · exact ((run_code_language_check "/workspace" (RunCodeReq.mk "Ruby" "puts 1" 30) "abcd1234"
      ExecOutcome.timedOut (FS.mk [] [["workspace"]])).1 rfl).1
  · exact ((run_code_language_check "/workspace" (RunCodeReq.mk "Ruby" "puts 1" 30) "abcd1234"
      ExecOutcome.timedOut (FS.mk [] [["workspace"]])).1 rfl).2
  · exact (run_code_language_check "/workspace" (RunCodeReq.mk "PyThOn" "print(1)" 30) "abcd1234"
      ExecOutcome.timedOut (FS.mk [] [["workspace"]])).2 "python3" rfl
      (HTTPError.mk 408 "Code execution timed out")
      (setFile (FS.mk [] [["workspace"]]) ["workspace", "_run_abcd1234.py"] (utf8Encode "print(1)"))
      rfl

/-- Claim C7: `delete_path` answers 404 when nothing is at the resolved
path and leaves the state untouched, so a repeated call answers 404
again; on a directory it removes exactly the subtree at that path
(directory entries and file entries alike); on a file it removes exactly
that one file and no directory. -/
theorem delete_path_spec (workspace path : String) (fs : FS) (full : String) (p : FsPath)
    (hfull : full = resolvePath workspace path) (hp : p = splitPath full) :
    (existsS fs full = false →
      delete_path workspace path fs = (.error (HTTPError.mk 404 "Path not found"), fs)
      ∧ delete_path workspace path (delete_path workspace path fs).2 =
          (.error (HTTPError.mk 404 "Path not found"), fs))
    ∧ (existsS fs full = true → isdirS fs full = true →
      (delete_path workspace path fs).1 = .ok (DeleteResp.mk "success" full)
      ∧ (∀ q, lookupFile (delete_path workspace path fs).2 q =
          if isPref p q = true then none else lookupFile fs q)
      ∧ (∀ q, q ∈ (delete_path workspace path fs).2.dirs ↔
          q ∈ fs.dirs ∧ isPref p q = false))
    ∧ (existsS fs full = true → isdirS fs full = false →
      (delete_path workspace path fs).1 = .ok (DeleteResp.mk "success" full)
      ∧ lookupFile (delete_path workspace path fs).2 p = none
      ∧ (∀ q, q ≠ p → lookupFile (delete_path workspace path fs).2 q = lookupFile fs q)
      ∧ (delete_path workspace path fs).2.dirs = fs.dirs) := by
  subst hfull
  subst hp
  refine ⟨?_, ?_, ?_⟩
  · intro hex
    have h1 : delete_path workspace path fs = (.error (HTTPError.mk 404 "Path not found"), fs) := by
      simp [delete_path, hex]
    exact ⟨h1, by rw [h1]; exact h1⟩
  · intro hex hdir
    have h1 : delete_path workspace path fs =
        (.ok (DeleteResp.mk "success" (resolvePath workspace path)),
          rmtree fs (splitPath (resolvePath workspace path))) := by
      simp [delete_path, hex, hdir]
    rw [h1]
    refine ⟨rfl, ?_, ?_⟩
    · intro q
      by_cases hpq : isPref (splitPath (resolvePath workspace path)) q = true
      · rw [if_pos hpq]
        exact lookupFile_rmtree_of_pref fs _ q hpq
      · rw [if_neg hpq]
        exact lookupFile_rmtree_of_not_pref fs _ q (by simpa using hpq)
    · intro q
      exact mem_dirs_rmtree fs _ q
  · intro hex hdir
    have h1 : delete_path workspace path fs =
        (.ok (DeleteResp.mk "success" (resolvePath workspace path)),
          removeFile fs (splitPath (resolvePath workspace path))) := by
      simp [delete_path, hex, hdir]
    rw [h1]
    refine ⟨rfl, lookupFile_removeFile_self fs _, ?_, rfl⟩
    intro q hq
    exact lookupFile_removeFile_other fs _ q hq

theorem delete_path_spec_witness :
    ((delete_path "/workspace" "d"
        (FS.mk [(["workspace", "d", "f.txt"], [1]), (["workspace", "g.txt"], [2])]
          [["workspace"], ["workspace", "d"], ["workspace", "d", "sub"]])).1 =
      .ok (DeleteResp.mk "success" "/workspace/d")
      ∧ (∀ q, lookupFile (delete_path "/workspace" "d"
          (FS.mk [(["workspace", "d", "f.txt"], [1]), (["workspace", "g.txt"], [2])]
            [["workspace"], ["workspace", "d"], ["workspace", "d", "sub"]])).2 q =
          if isPref ["workspace", "d"] q = true then none
          else lookupFile (FS.mk [(["workspace", "d", "f.txt"], [1]), (["workspace", "g.txt"], [2])]
            [["workspace"], ["workspace", "d"], ["workspace", "d", "sub"]]) q)
      ∧ (∀ q, q ∈ (delete_path "/workspace" "d"
          (FS.mk [(["workspace", "d", "f.txt"], [1]), (["workspace", "g.txt"], [2])]
            [["workspace"], ["workspace", "d"], ["workspace", "d", "sub"]])).2.dirs ↔
          q ∈ [["workspace"], ["workspace", "d"], ["workspace", "d", "sub"]]
            ∧ isPref ["workspace", "d"] q = false))
    ∧ delete_path "/workspace" "ghost"
        (FS.mk [] [["workspace"]]) =
      (.error (HTTPError.mk 404 "Path not found"), FS.mk [] [["workspace"]]) := by
  constructor
  · exact (delete_path_spec "/workspace" "d"
      (FS.mk [(["workspace", "d", "f.txt"], [1]), (["workspace", "g.txt"], [2])]
        [["workspace"], ["workspace", "d"], ["workspace", "d", "sub"]])
      "/workspace/d" ["workspace", "d"] rfl rfl).2.1 rfl rfl
  · exact ((delete_path_spec "/workspace" "ghost" (FS.mk [] [["workspace"]])
      "/workspace/ghost" ["workspace", "ghost"] rfl rfl).1 rfl).1

theorem mkItem_name (fs : FS) (st : FsPath → Nat × Int) (p : FsPath) (n : String) :
    (mkItem fs st p n).name = n := by
  simp only [mkItem]
  split <;> rfl

/-- Claim C5: a successful `/list` answer is sorted by the key
`(0 if dir else 1, name.lower())` — in particular no file entry ever
precedes a directory entry — and its entries are exactly the children
`os.listdir` reported, as a permutation. -/
theorem list_dir_sorted (workspace path : String) (st : FsPath → Nat × Int) (fs : FS)
    (r : DirListing) (h : list_dir workspace path st fs = .ok r) :
    List.Sorted itemLeP r.items
    ∧ (r.items.map (fun x => x.name)).Perm
        (listdirFS fs (splitPath (resolvePath workspace path)))
    ∧ r.items.Pairwise (fun a b => ¬ (a.type = "file" ∧ b.type = "dir")) := by
  simp only [list_dir] at h
  by_cases hex : existsS fs (resolvePath workspace path) = true
  · rw [hex] at h
    simp only [Bool.not_true, Bool.false_eq_true, if_false] at h
    by_cases hdir : isdirS fs (resolvePath workspace path) = true
    · rw [hdir] at h
      simp only [Bool.not_true, Bool.false_eq_true, if_false, Except.ok.injEq] at h
      have hitems : r.items =
          ((listdirFS fs (splitPath (resolvePath workspace path))).map
            (mkItem fs st (splitPath (resolvePath workspace path)))).insertionSort itemLeP := by
        rw [← h]
      have hsorted : List.Sorted itemLeP r.items := by
        rw [hitems]
        exact List.sorted_insertionSort itemLeP _
      refine ⟨hsorted, ?_, ?_⟩
      · rw [hitems]
        have hperm := List.perm_insertionSort itemLeP
          ((listdirFS fs (splitPath (resolvePath workspace path))).map
            (mkItem fs st (splitPath (resolvePath workspace path))))
        have hpm := hperm.map (fun x : FSItem => x.name)
        refine hpm.trans ?_
        rw [List.map_map]
        have hcomp : ((fun x : FSItem => x.name) ∘
            mkItem fs st (splitPath (resolvePath workspace path))) = id := by
          funext n
          simp [mkItem_name]
        rw [hcomp, List.map_id]
      · refine hsorted.imp ?_
        intro a b hab hcontra
        rcases hcontra with ⟨ha, hb⟩
        unfold itemLeP itemRank at hab
        rw [ha, hb] at hab
        simp at hab
    · rw [Bool.not_eq_true] at hdir
      rw [hdir] at h
      simp at h
  · rw [Bool.not_eq_true] at hex
    rw [hex] at h
    simp at h

theorem list_dir_sorted_witness :
    List.Sorted itemLeP
      [FSItem.mk "z" "dir" 4096 0, FSItem.mk "A.txt" "file" 1 0, FSItem.mk "b.txt" "file" 1 0]
    ∧ ([FSItem.mk "z" "dir" 4096 0, FSItem.mk "A.txt" "file" 1 0,
        FSItem.mk "b.txt" "file" 1 0].map (fun x => x.name)).Perm
        (listdirFS
          (FS.mk [(["workspace", "d", "b.txt"], [98]), (["workspace", "d", "A.txt"], [97])]
            [["workspace"], ["workspace", "d"], ["workspace", "d", "z"]])
          (splitPath (resolvePath "/workspace" "d")))
    ∧ List.Pairwise (fun a b => ¬ (a.type = "file" ∧ b.type = "dir"))
      [FSItem.mk "z" "dir" 4096 0, FSItem.mk "A.txt" "file" 1 0, FSItem.mk "b.txt" "file" 1 0] :=
  list_dir_sorted "/workspace" "d" (fun _ => (4096, 0))
    (FS.mk [(["workspace", "d", "b.txt"], [98]), (["workspace", "d", "A.txt"], [97])]
      [["workspace"], ["workspace", "d"], ["workspace", "d", "z"]])
    (DirListing.mk "/workspace/d"
      [FSItem.mk "z" "dir" 4096 0, FSItem.mk "A.txt" "file" 1 0, FSItem.mk "b.txt" "file" 1 0])
    rfl

/-- Claim C3 fails as stated: Python text-mode reads use universal
newlines (`newline=None`), so a carriage return written through `/write`
comes back as a line feed from `/read`.  Writing `"a\r\nb"` to a fresh
workspace and reading it back yields `"a\nb"`, not the original content —
a divergence beyond the declared encoding-replacement policy. -/
theorem write_read_not_exact :
    (write_file "/workspace" "f.txt" "a\r\nb" (FS.mk [] [["workspace"]])).1 =
      .ok (WriteResp.mk "success" "/workspace/f.txt")
    ∧ read_file "/workspace" "f.txt"
        (write_file "/workspace" "f.txt" "a\r\nb" (FS.mk [] [["workspace"]])).2 =
      .ok "a\nb"
    ∧ ("a\nb" : String) ≠ "a\r\nb" := by
  refine ⟨rfl, rfl, by decide⟩

/-- Claim C3 (amended): after a successful `/write` of content `C` to
path `P`, `/read` of `P` returns exactly `C` whenever `C` contains no
carriage return; in general the result is `C` up to encoding replacement
and universal-newline translation. -/
theorem write_read_roundtrip (workspace path content : String) (fs fs2 : FS) (r : WriteResp)
    (h : write_file workspace path content fs = (.ok r, fs2))
    (hcr : ∀ c ∈ content.data, c ≠ '\r') :
    read_file workspace path fs2 = .ok content := by
  simp only [write_file] at h
  cases hm : makedirsS fs (dirnameStr (resolvePath workspace path)) with
  | error e =>
    rw [hm] at h
    simp at h
  | ok fsm =>
    rw [hm] at h
    simp only [] at h
    cases hw : openWrite (resolvePath workspace path) (utf8Encode content) fsm with
    | error e =>
      rw [hw] at h
      simp at h
    | ok fs' =>
      rw [hw] at h
      simp at h
      obtain ⟨-, hfs2⟩ := h
      subst hfs2
      unfold openWrite at hw
      by_cases hb : badLast (lastRaw (resolvePath workspace path)) = true
      · rw [if_pos hb] at hw
        exact absurd hw (by simp)
      · rw [if_neg hb] at hw
        by_cases hd : isDirB fsm (splitPath (resolvePath workspace path)) = true
        · rw [if_pos hd] at hw
          exact absurd hw (by simp)
        · rw [if_neg hd] at hw
          by_cases hpar : isDirB fsm (splitPath (resolvePath workspace path)).dropLast = true
          · rw [if_neg (by simp [hpar])] at hw
            simp at hw
            subst hw
            simp only [read_file]
            have hlook : lookupFile (setFile fsm (splitPath (resolvePath workspace path))
                (utf8Encode content)) (splitPath (resolvePath workspace path)) =
                some (utf8Encode content) := lookupFile_setFile_self fsm _ _
            have hex : existsS (setFile fsm (splitPath (resolvePath workspace path))
                (utf8Encode content)) (resolvePath workspace path) = true := by
              unfold existsS
              rw [Bool.not_eq_true] at hb
              rw [hb]
              unfold pathExistsB isFileB
              rw [hlook]
              simp
            rw [hex]
            simp only [Bool.not_true, Bool.false_eq_true, if_false]
            unfold openRead
            have hd2 : isDirB (setFile fsm (splitPath (resolvePath workspace path))
                (utf8Encode content)) (splitPath (resolvePath workspace path)) = false := by
              unfold isDirB at hd ⊢
              rw [dirs_setFile]
              simpa using hd
            rw [hd2]
            simp only [Bool.false_eq_true, if_false]
            rw [Bool.not_eq_true] at hb
            rw [hb]
            simp only [Bool.false_eq_true, if_false]
            rw [hlook]
            simp only []
            rw [show utf8Decode (utf8Encode content) = content.data from utf8Decode_utf8Encode content]
            rw [univNl_eq_self content.data hcr, strMkData]
          · rw [Bool.not_eq_true] at hpar
            rw [if_pos (by rw [hpar]; rfl)] at hw
            exact absurd hw (by simp)

theorem write_read_roundtrip_witness :
    read_file "/workspace" "notes/hello.txt"
      (write_file "/workspace" "notes/hello.txt" "hello world" (FS.mk [] [["workspace"]])).2 =
    .ok "hello world" :=
  write_read_roundtrip "/workspace" "notes/hello.txt" "hello world"
    (FS.mk [] [["workspace"]])
    (write_file "/workspace" "notes/hello.txt" "hello world" (FS.mk [] [["workspace"]])).2
    (WriteResp.mk "success" "/workspace/notes/hello.txt") rfl (by decide)

/-- Claim C10: when the client supplies no filename — the multipart field
is missing (`none`) or empty — `/upload` behaves exactly as if the name
were "uploaded_file" (Python `file.filename or "uploaded_file"`), and the
request succeeds (given the target directory could be created), storing
the content under "uploaded_file" or its collision-renamed variant. -/
theorem upload_default_filename (workspace sub : String) (content : List Nat) (fs fs1 : FS)
    (hmk : makedirsS fs (uploadTargetDir workspace sub) = .ok fs1) :
    upload_file workspace none content sub fs =
        upload_file workspace (some "") content sub fs
    ∧ upload_file workspace none content sub fs =
        upload_file workspace (some "uploaded_file") content sub fs
    ∧ ∃ (r : UploadResp) (fs2 : FS) (leaf : String),
        upload_file workspace none content sub fs = (.ok r, fs2)
        ∧ lookupFile fs2 (splitPath (uploadTargetDir workspace sub) ++ [leaf]) = some content
        ∧ (leaf = "uploaded_file" ∨ ∃ n, 1 ≤ n ∧ leaf = candName "uploaded_file" "" n) := by
  refine ⟨rfl, rfl, ?_⟩
  have hgoodU : goodComp "uploaded_file" := by
    refine ⟨by decide, by decide, by decide, by decide⟩
  obtain ⟨leaf, heq, hgood, hfree, hform⟩ :=
    uploadTargetS_spec fs1 (uploadTargetDir workspace sub) "uploaded_file" hgoodU
  have hnd : isDirB fs1 (splitPath (uploadTargetDir workspace sub) ++ [leaf]) = false := by
    rw [existsS_eq_pathExistsB_of_goodComp fs1 _ leaf hgood] at hfree
    unfold pathExistsB at hfree
    rcases Bool.or_eq_false_iff.1 hfree with ⟨hx, -⟩
    exact hx
  have hpar : isDirB fs1 (splitPath (uploadTargetDir workspace sub)) = true :=
    isDirB_makedirsP_self hmk
  refine ⟨UploadResp.mk
      (relpathStr (osJoin (uploadTargetDir workspace sub) leaf) workspace) content.length,
    setFile fs1 (splitPath (uploadTargetDir workspace sub) ++ [leaf]) content, leaf, ?_, ?_, ?_⟩
  · simp only [upload_file]
    rw [hmk]
    simp only []
    rw [heq, openWrite_ok _ leaf content fs1 hgood hnd hpar]
  · exact lookupFile_setFile_self fs1 _ content
  · rcases hform with h | ⟨n, hn, hcand, -⟩
    · exact Or.inl h
    · exact Or.inr ⟨n, hn, hcand⟩

theorem upload_default_filename_witness :
    upload_file "/workspace" none [7, 8] "" (FS.mk [] [["workspace"]]) =
        upload_file "/workspace" (some "") [7, 8] "" (FS.mk [] [["workspace"]])
    ∧ upload_file "/workspace" none [7, 8] "" (FS.mk [] [["workspace"]]) =
        upload_file "/workspace" (some "uploaded_file") [7, 8] "" (FS.mk [] [["workspace"]])
    ∧ ∃ (r : UploadResp) (fs2 : FS) (leaf : String),
        upload_file "/workspace" none [7, 8] "" (FS.mk [] [["workspace"]]) = (.ok r, fs2)
        ∧ lookupFile fs2 (splitPath (uploadTargetDir "/workspace" "") ++ [leaf]) = some [7, 8]
        ∧ (leaf = "uploaded_file" ∨ ∃ n, 1 ≤ n ∧ leaf = candName "uploaded_file" "" n) :=
  upload_default_filename "/workspace" "" [7, 8] (FS.mk [] [["workspace"]])
    (FS.mk [] ([[], ["workspace"]] ++ [["workspace"]])) rfl

theorem lookupFile_none_of_free (fsm : FS) (tdir leaf : String) (hg : goodComp leaf)
    (hfree : existsS fsm (osJoin tdir leaf) = false) :
    lookupFile fsm (splitPath tdir ++ [leaf]) = none := by
  rw [existsS_eq_pathExistsB_of_goodComp fsm _ leaf hg] at hfree
  unfold pathExistsB isFileB at hfree
  rcases Bool.or_eq_false_iff.1 hfree with ⟨-, hx⟩
  cases hl : lookupFile fsm (splitPath tdir ++ [leaf]) with
  | none => rfl
  | some c =>
    rw [hl] at hx
    exact absurd hx (by simp)

/-- Claim C4: two successive uploads of the same (plain) filename into
the same directory both land as distinct stored files — the collision
loop renames the second to `name_n.ext` for some counter `n ≥ 1` — and
every file that existed before either upload keeps its content: no
existing file is ever overwritten, and in particular the first upload's
content is intact after the second. -/
theorem upload_collision_law (workspace sub f : String) (c1 c2 : List Nat) (fs fs1 fs2 : FS)
    (r1 r2 : UploadResp) (hf : goodComp f)
    (h1 : upload_file workspace (some f) c1 sub fs = (.ok r1, fs1))
    (h2 : upload_file workspace (some f) c2 sub fs1 = (.ok r2, fs2)) :
    ∃ q1 q2 : FsPath, q1 ≠ q2
      ∧ lookupFile fs1 q1 = some c1
      ∧ lookupFile fs2 q1 = some c1
      ∧ lookupFile fs2 q2 = some c2
      ∧ (∀ q c, lookupFile fs q = some c → lookupFile fs1 q = some c)
      ∧ (∀ q c, lookupFile fs1 q = some c → lookupFile fs2 q = some c)
      ∧ (∃ n, 1 ≤ n ∧
          q2 = splitPath (uploadTargetDir workspace sub) ++
            [candName (splitext f).1 (splitext f).2 n]) := by
  obtain ⟨fsm, leaf1, hmk1, hg1, hfree1, hset1, hform1⟩ :=
    upload_file_ok workspace sub f c1 fs fs1 r1 hf h1
  obtain ⟨fsm2, leaf2, hmk2, hg2, hfree2, hset2, hform2⟩ :=
    upload_file_ok workspace sub f c2 fs1 fs2 r2 hf h2
  have hq1fs1 : lookupFile fs1 (splitPath (uploadTargetDir workspace sub) ++ [leaf1]) =
      some c1 := by
    rw [hset1]
    exact lookupFile_setFile_self fsm _ c1
  have hfresh1 : lookupFile fsm (splitPath (uploadTargetDir workspace sub) ++ [leaf1]) = none :=
    lookupFile_none_of_free fsm _ leaf1 hg1 hfree1
  have hfresh2 : lookupFile fsm2 (splitPath (uploadTargetDir workspace sub) ++ [leaf2]) = none :=
    lookupFile_none_of_free fsm2 _ leaf2 hg2 hfree2
  have hpres1 : ∀ q c, lookupFile fs q = some c → lookupFile fs1 q = some c := by
    intro q c hq
    have hqm : lookupFile fsm q = some c := by
      rw [lookupFile_makedirsP hmk1 q]
      exact hq
    have hne : q ≠ splitPath (uploadTargetDir workspace sub) ++ [leaf1] := by
      intro h0
      rw [h0, hfresh1] at hqm
      exact absurd hqm (by simp)
    rw [hset1, lookupFile_setFile_other fsm _ c1 q hne]
    exact hqm
  have hpres2 : ∀ q c, lookupFile fs1 q = some c → lookupFile fs2 q = some c := by
    intro q c hq
    have hqm : lookupFile fsm2 q = some c := by
      rw [lookupFile_makedirsP hmk2 q]
      exact hq
    have hne : q ≠ splitPath (uploadTargetDir workspace sub) ++ [leaf2] := by
      intro h0
      rw [h0, hfresh2] at hqm
      exact absurd hqm (by simp)
    rw [hset2, lookupFile_setFile_other fsm2 _ c2 q hne]
    exact hqm
  have hq1fs2 : lookupFile fs2 (splitPath (uploadTargetDir workspace sub) ++ [leaf1]) =
      some c1 := hpres2 _ c1 hq1fs1
  have hneq : (splitPath (uploadTargetDir workspace sub) ++ [leaf1] : FsPath) ≠
      splitPath (uploadTargetDir workspace sub) ++ [leaf2] := by
    intro h0
    have hqm : lookupFile fsm2 (splitPath (uploadTargetDir workspace sub) ++ [leaf1]) =
        some c1 := by
      rw [lookupFile_makedirsP hmk2 _]
      exact hq1fs1
    rw [h0, hfresh2] at hqm
    exact absurd hqm (by simp)
  have hex2 : existsS fsm2 (osJoin (uploadTargetDir workspace sub) f) = true := by
    have hex_fs1 : existsS fs1 (osJoin (uploadTargetDir workspace sub) f) = true := by
      rcases hform1 with hlf | ⟨-, -, -, hexm⟩
      · rw [existsS_eq_pathExistsB_of_goodComp fs1 _ f hf]
        subst hlf
        unfold pathExistsB isFileB
        rw [hq1fs1]
        simp
      · rw [hset1]
        exact existsS_mono_setFile fsm _ c1 _ hexm
    unfold makedirsS at hmk2
    exact existsS_mono_makedirsP hmk2 _ hex_fs1
  rcases hform2 with hlf2 | ⟨n, hn, hcand, -⟩
  · rw [hlf2] at hfree2
    rw [hex2] at hfree2
    exact absurd hfree2 (by simp)
  · refine ⟨splitPath (uploadTargetDir workspace sub) ++ [leaf1],
      splitPath (uploadTargetDir workspace sub) ++ [leaf2],
      hneq, hq1fs1, hq1fs2, ?_, hpres1, hpres2, n, hn, by rw [hcand]⟩
    rw [hset2]
    exact lookupFile_setFile_self fsm2 _ c2

theorem upload_collision_law_witness :
    ∃ q1 q2 : FsPath, q1 ≠ q2
      ∧ lookupFile (upload_file "/workspace" (some "a.txt") [1, 2] ""
          (FS.mk [] [["workspace"]])).2 q1 = some [1, 2]
      ∧ lookupFile (upload_file "/workspace" (some "a.txt") [3] ""
          (upload_file "/workspace" (some "a.txt") [1, 2] "" (FS.mk [] [["workspace"]])).2).2 q1 =
          some [1, 2]
      ∧ lookupFile (upload_file "/workspace" (some "a.txt") [3] ""
          (upload_file "/workspace" (some "a.txt") [1, 2] "" (FS.mk [] [["workspace"]])).2).2 q2 =
          some [3]
      ∧ (∀ q c, lookupFile (FS.mk [] [["workspace"]]) q = some c →
          lookupFile (upload_file "/workspace" (some "a.txt") [1, 2] ""
            (FS.mk [] [["workspace"]])).2 q = some c)
      ∧ (∀ q c, lookupFile (upload_file "/workspace" (some "a.txt") [1, 2] ""
            (FS.mk [] [["workspace"]])).2 q = some c →
          lookupFile (upload_file "/workspace" (some "a.txt") [3] ""
            (upload_file "/workspace" (some "a.txt") [1, 2] ""
              (FS.mk [] [["workspace"]])).2).2 q = some c)
      ∧ (∃ n, 1 ≤ n ∧
          q2 = splitPath (uploadTargetDir "/workspace" "") ++
            [candName (splitext "a.txt").1 (splitext "a.txt").2 n]) :=
  upload_collision_law "/workspace" "" "a.txt" [1, 2] [3] (FS.mk [] [["workspace"]])
    (upload_file "/workspace" (some "a.txt") [1, 2] "" (FS.mk [] [["workspace"]])).2
    (upload_file "/workspace" (some "a.txt") [3] ""
      (upload_file "/workspace" (some "a.txt") [1, 2] "" (FS.mk [] [["workspace"]])).2).2
    (UploadResp.mk "a.txt" 2) (UploadResp.mk "a_1.txt" 1)
    ⟨by decide, by decide, by decide, by decide⟩ rfl rfl
